import Mathlib

/-!
Shallow embedding of the buffered read-seek engine of the `io` package
(`buffer.go`, `types.go`, `utils.go`) of the go-sdk repository, together with
proofs about its Read/Seek/DisableSeeker/Close operations.

Bytes are modelled as `Nat`, byte slices as `List Nat`.  The engine is
deterministic and sequential here: every operation runs under the engine's
single mutex in the Go code, so the interleaving-free model is the one the
code itself serialises to.  Loops are modelled with an explicit fuel that is
chosen large enough for every state the proofs quantify over.
-/

namespace Gosdk

/-- Error values of the `io` package: `io.EOF`, `ErrClosed`, `ErrSeekerDisabled`,
`ErrSeekerOutOfRange`, `ErrSeekerInvalidWhence` from `types.go`, plus `other`
for any further error a source may return. -/
inductive GoErr where
  | eof
  | closed
  | seekerDisabled
  | seekerOutOfRange
  | seekerInvalidWhence
  | other (code : Nat)
deriving DecidableEq, Repr

/-- Model of the underlying `io.Reader` source, after the shape of `testReader`
in the repository's test helpers: a call for `req` bytes returns
`min req remaining` bytes; once the data is exhausted it returns zero bytes
together with `io.EOF`, or with a non-EOF error when `endErr` is set (this
models a faulty source). -/
structure Src where
  data : List Nat
  endErr : Option Nat
deriving DecidableEq, Repr

/-- The error a drained source reports: `io.EOF`, or the injected failure. -/
def srcEndErr (endErr : Option Nat) : GoErr :=
  match endErr with
  | none => GoErr.eof
  | some e => GoErr.other e

/-- One call of `Src.Read`: returns the bytes delivered, the Go error value,
and the source afterwards. -/
def srcRead (s : Src) (req : Nat) : List Nat × Option GoErr × Src :=
  if s.data.isEmpty then
    ([], some (srcEndErr s.endErr), s)
  else
    (s.data.take req, none, { s with data := s.data.drop req })

/-- State of `bufReader` (buffer.go).  `buffer` is the chunk list; a `none`
entry is a slot that `cleanUpBuffer` has released and set to `nil`.
`poolGets`/`poolPuts` count `pool.Get`/`pool.Put` calls (the default pool of
`utils.go` never blocks and never fails, and `Buffer.cleanUp` performs one
`Put`).  `ctxCanceled` records that `cancelCtx` was called and `srcClosed`
that the underlying reader's `Close` was called. -/
structure BufReader where
  bufSize : Nat
  isSeekerDisabled : Bool
  isClosed : Bool
  isEofReached : Bool
  ctxCanceled : Bool
  srcClosed : Bool
  src : Src
  buffer : List (Option (List Nat))
  currentPos : Nat
  poolGets : Nat
  poolPuts : Nat
deriving DecidableEq, Repr

/-- `bufReader.getReaderPos`: `(len(list)-1)*C + len(last)`, `0` for an empty
list. -/
def getReaderPos (b : BufReader) : Nat :=
  match b.buffer.getLast? with
  | none => 0
  | some c => (b.buffer.length - 1) * b.bufSize + (c.getD []).length

/-- The chunk stored at index `i` of the list (`[]` for a released slot). -/
def chunkAt (b : BufReader) (i : Nat) : List Nat :=
  (b.buffer.getD i none).getD []

/-- One `copy` of the `readTo` loop: the bytes taken from the chunk holding
`currentPos`, capped by the remaining room of the caller's buffer. -/
def copyStep (b : BufReader) (room : Nat) : List Nat :=
  (((chunkAt b (b.currentPos / b.bufSize)).drop (b.currentPos % b.bufSize)).take room)

/-- Loop body of `bufReader.readTo`: copy from the chunk list at `currentPos`
into the caller's buffer of size `plen`; `acc` is what has been copied so far. -/
def readToLoop (plen : Nat) : Nat → BufReader → List Nat → List Nat × Option GoErr × BufReader
  | 0, b, acc => (acc, none, b)
  | fuel + 1, b, acc =>
    if getReaderPos b ≤ b.currentPos then
      (acc, if b.isEofReached = true ∧ acc.length = 0 then some GoErr.eof else none, b)
    else if acc.length = plen then
      (acc, none, b)
    else if b.isClosed = true then
      (acc, some GoErr.closed, b)
    else
      readToLoop plen fuel
        { b with currentPos := b.currentPos + (copyStep b (plen - acc.length)).length }
        (acc ++ copyStep b (plen - acc.length))

/-- `bufReader.readTo` with fuel `plen + 2`, enough for every state whose
chunks can deliver at least one byte per iteration. -/
def readTo (b : BufReader) (plen : Nat) : List Nat × Option GoErr × BufReader :=
  readToLoop plen (plen + 2) b []

/-- Chunk acquisition of the `read` loop: when the list is empty, its last
slot is `nil`, or the last chunk is full, take a fresh chunk from the pool
(the default pool never blocks or fails), truncate it to length zero and
append it. -/
def acquireChunk (b : BufReader) : BufReader :=
  if b.buffer.getLastD none = none ∨ ((b.buffer.getLastD none).getD []).length = b.bufSize then
    { b with buffer := b.buffer ++ [some []], poolGets := b.poolGets + 1 }
  else b

/-- Source read of the `read` loop: fill the spare capacity of the last chunk
from the source; returns the byte count delivered, the source's error, and
the engine with the extended chunk. -/
def fillLast (b : BufReader) : Nat × Option GoErr × BufReader :=
  let buf := (b.buffer.getLastD none).getD []
  let r := srcRead b.src (b.bufSize - buf.length)
  (r.1.length, r.2.1, { b with src := r.2.2, buffer := b.buffer.dropLast ++ [some (buf ++ r.1)] })

/-- One full iteration body of the `read` loop. -/
def readStep (b : BufReader) : Nat × Option GoErr × BufReader :=
  fillLast (acquireChunk b)

/-- Loop of `bufReader.read`: pull data from the source into the chunk
list until `n` bytes arrived (`n < 0` means: until EOF or error). -/
def readLoop (n : Int) : Nat → BufReader → Nat → Option GoErr → Nat × Option GoErr × BufReader
  | 0, b, bytesRead, err => (bytesRead, err, b)
  | fuel + 1, b, bytesRead, err =>
    if b.isEofReached = true then
      (bytesRead, some GoErr.eof, b)
    else if err = some GoErr.eof then
      (bytesRead, if 0 < bytesRead then none else some GoErr.eof, { b with isEofReached := true })
    else if err ≠ none then
      (bytesRead, err, b)
    else if 0 ≤ n ∧ n ≤ (bytesRead : Int) then
      (bytesRead, err, b)
    else
      readLoop n fuel (readStep b).2.2 (bytesRead + (readStep b).1) (readStep b).2.1

/-- `bufReader.read` with fuel `data.length + 2`: every loop iteration that
touches the source either consumes at least one byte or produces the final
EOF/error. -/
def read (b : BufReader) (n : Int) : Nat × Option GoErr × BufReader :=
  readLoop n (b.src.data.length + 2) b 0 none

/-- Loop of `bufReader.cleanUpBuffer` over the entries, carrying the index:
returns the entry list after the loop and the number of `Put` calls made.
With `all = false` the loop returns early at the first index `≥ crp`. -/
def cleanUpEntries (all : Bool) (crp : Nat) : Nat → List (Option (List Nat)) → List (Option (List Nat)) × Nat
  | _, [] => ([], 0)
  | i, c :: rest =>
    if all = false ∧ crp ≤ i then (c :: rest, 0)
    else
      let r := cleanUpEntries all crp (i + 1) rest
      (none :: r.1, r.2 + if c.isSome then 1 else 0)

/-- `bufReader.cleanUpBuffer`: releases chunks below `currentPos / bufSize`
(or all of them); when the loop runs to completion the list itself is dropped
(`b.buffer = nil`). -/
def cleanUpBuffer (b : BufReader) (all : Bool) : BufReader :=
  let crp := b.currentPos / b.bufSize
  let r := cleanUpEntries all crp 0 b.buffer
  let newBuf := if all = true ∨ b.buffer.length ≤ crp then [] else r.1
  { b with buffer := newBuf, poolPuts := b.poolPuts + r.2 }

/-- `bufReader.DisableSeeker`: one-shot flag plus cleanup of the consumed
prefix of the chunk list. -/
def disableSeeker (b : BufReader) : BufReader :=
  if b.isClosed = true then b
  else if b.isSeekerDisabled = true then b
  else cleanUpBuffer { b with isSeekerDisabled := true } false

/-- `bufReader.Close`: one-shot; cancels the pool-acquisition context, closes
the underlying reader (the wrapped `ReadCloser` never fails here, matching
`NopCloser` and the repository's test sources), then the deferred cleanup
releases every remaining chunk. -/
def bufClose (b : BufReader) : Option GoErr × BufReader :=
  if b.isClosed = true then (some GoErr.closed, b)
  else
    (none, cleanUpBuffer { b with isClosed := true, ctxCanceled := true, srcClosed := true } true)

/-- First phase of `bufReader.Read`: when `currentPos` is behind the fetch
position, drain the chunk list; otherwise nothing is copied yet. -/
def bufReadDrain (b : BufReader) (plen : Nat) : List Nat × Option GoErr × BufReader :=
  if b.currentPos < getReaderPos b then readTo b plen else ([], none, b)

/-- Pass-through branch of `bufReader.Read` once the seeker is disabled: read
directly from the source into the remaining room, then the deferred
`cleanUpBuffer(true)` releases every chunk. -/
def bufReadDirect (out : List Nat) (b1 : BufReader) (plen : Nat) : List Nat × Option GoErr × BufReader :=
  (out ++ (srcRead b1.src (plen - out.length)).1,
    (srcRead b1.src (plen - out.length)).2.1,
    cleanUpBuffer { b1 with src := (srcRead b1.src (plen - out.length)).2.2 } true)

/-- Buffered branch of `bufReader.Read`: fetch via `read`, and when bytes
arrived copy them out with `readTo` (whose error replaces the fetch error,
as in the Go code). -/
def bufReadFetch (out : List Nat) (b1 : BufReader) (plen : Nat) : List Nat × Option GoErr × BufReader :=
  if 0 < (read b1 ((plen : Int) - (out.length : Int))).1 then
    (out ++ (readTo (read b1 ((plen : Int) - (out.length : Int))).2.2 (plen - out.length)).1,
      (readTo (read b1 ((plen : Int) - (out.length : Int))).2.2 (plen - out.length)).2.1,
      (readTo (read b1 ((plen : Int) - (out.length : Int))).2.2 (plen - out.length)).2.2)
  else
    (out, (read b1 ((plen : Int) - (out.length : Int))).2.1,
      (read b1 ((plen : Int) - (out.length : Int))).2.2)

/-- Tail of `bufReader.Read` after a successful drain. -/
def bufReadCont (out : List Nat) (b1 : BufReader) (plen : Nat) : List Nat × Option GoErr × BufReader :=
  if out.length = plen then (out, none, b1)
  else if b1.isSeekerDisabled = true then bufReadDirect out b1 plen
  else bufReadFetch out b1 plen

/-- `bufReader.Read` on a caller buffer of length `plen`: returns the bytes
copied, the error, and the engine afterwards. -/
def bufRead (b : BufReader) (plen : Nat) : List Nat × Option GoErr × BufReader :=
  if b.isClosed = true then ([], some GoErr.closed, b)
  else if (bufReadDrain b plen).2.1 ≠ none then bufReadDrain b plen
  else bufReadCont (bufReadDrain b plen).1 (bufReadDrain b plen).2.2 plen

/-- The forced read-ahead of `bufReader.Seek` when the target lies past the
bytes fetched so far: on a non-EOF error or a short read the seek fails with
`currentPos` untouched, otherwise `currentPos` moves to the target. -/
def bufSeekFetch (b : BufReader) (abs : Int) : Int × Option GoErr × BufReader :=
  if (read b (abs - (getReaderPos b : Int))).2.1 ≠ none
      ∧ (read b (abs - (getReaderPos b : Int))).2.1 ≠ some GoErr.eof then
    (((read b (abs - (getReaderPos b : Int))).2.2.currentPos : Int),
      (read b (abs - (getReaderPos b : Int))).2.1,
      (read b (abs - (getReaderPos b : Int))).2.2)
  else if ((read b (abs - (getReaderPos b : Int))).1 : Int) < abs - (getReaderPos b : Int) then
    (((read b (abs - (getReaderPos b : Int))).2.2.currentPos : Int), some GoErr.seekerOutOfRange,
      (read b (abs - (getReaderPos b : Int))).2.2)
  else (abs, none, { (read b (abs - (getReaderPos b : Int))).2.2 with currentPos := abs.toNat })

/-- Tail of `bufReader.Seek` after the absolute target `abs` has been
resolved: range check, forced read-ahead, and the update of `currentPos`. -/
def bufSeekResolve (b : BufReader) (abs : Int) : Int × Option GoErr × BufReader :=
  if abs < 0 then ((b.currentPos : Int), some GoErr.seekerOutOfRange, b)
  else if 0 < abs - (getReaderPos b : Int) then bufSeekFetch b abs
  else (abs, none, { b with currentPos := abs.toNat })

/-- The `SeekEnd` arm of `bufReader.Seek`: a positive offset is out of range;
otherwise a full read-ahead to EOF establishes the stream length before the
target is resolved (a non-EOF read error propagates, position untouched). -/
def bufSeekEnd (b : BufReader) (offset : Int) : Int × Option GoErr × BufReader :=
  if 0 < offset then ((b.currentPos : Int), some GoErr.seekerOutOfRange, b)
  else if (read b (-1)).2.1 ≠ none ∧ (read b (-1)).2.1 ≠ some GoErr.eof then
    (((read b (-1)).2.2.currentPos : Int), (read b (-1)).2.1, (read b (-1)).2.2)
  else bufSeekResolve (read b (-1)).2.2 ((getReaderPos (read b (-1)).2.2 : Int) + offset)

/-- `bufReader.Seek` with `whence` as the Go constant (`0` = SeekStart, `1` =
SeekCurrent, `2` = SeekEnd, anything else invalid). -/
def bufSeek (b : BufReader) (offset : Int) (whence : Nat) : Int × Option GoErr × BufReader :=
  if b.isClosed = true then ((b.currentPos : Int), some GoErr.closed, b)
  else if b.isSeekerDisabled = true then ((b.currentPos : Int), some GoErr.seekerDisabled, b)
  else if whence = 0 then bufSeekResolve b offset
  else if whence = 1 then bufSeekResolve b ((b.currentPos : Int) + offset)
  else if whence = 2 then bufSeekEnd b offset
  else ((b.currentPos : Int), some GoErr.seekerInvalidWhence, b)

/-- The engine `bufferReadSeekCloserFactory.NewReader` builds around a
non-seekable source: empty chunk list, position zero, fresh context. -/
def newBufReader (C : Nat) (s : Src) : BufReader :=
  { bufSize := C, isSeekerDisabled := false, isClosed := false, isEofReached := false,
    ctxCanceled := false, srcClosed := false, src := s, buffer := [],
    currentPos := 0, poolGets := 0, poolPuts := 0 }

/-- One public operation of the engine. -/
inductive Step : BufReader → BufReader → Prop where
  | doRead (b : BufReader) (plen : Nat) : Step b (bufRead b plen).2.2
  | doSeek (b : BufReader) (offset : Int) (whence : Nat) : Step b (bufSeek b offset whence).2.2
  | doDisable (b : BufReader) : Step b (disableSeeker b)
  | doClose (b : BufReader) : Step b (bufClose b).2

/-- States reachable from a fresh engine over chunk size `C` and source `s`
by any sequence of public operations. -/
inductive Reachable (C : Nat) (s : Src) : BufReader → Prop where
  | init : Reachable C s (newBufReader C s)
  | next {b b2 : BufReader} : Reachable C s b → Step b b2 → Reachable C s b2

/-- Model of a natively seekable source (after `strings.Reader`): `Seek`
resolves the target, rejects an unknown whence (`errWhence`, modelled as
`other 100`) and a negative position (`errNegative`, `other 101`), and does
not move on failure. -/
structure SeekerSrc where
  length : Nat
  pos : Int
deriving DecidableEq, Repr

/-- `strings.Reader.Seek`-style resolution for the passthrough adapter's
underlying source. -/
def rsSeek (s : SeekerSrc) (offset : Int) (whence : Nat) : Int × Option GoErr × SeekerSrc :=
  if whence = 0 then
    if offset < 0 then (0, some (GoErr.other 101), s) else (offset, none, { s with pos := offset })
  else if whence = 1 then
    let abs := s.pos + offset
    if abs < 0 then (0, some (GoErr.other 101), s) else (abs, none, { s with pos := abs })
  else if whence = 2 then
    let abs := (s.length : Int) + offset
    if abs < 0 then (0, some (GoErr.other 101), s) else (abs, none, { s with pos := abs })
  else (0, some (GoErr.other 100), s)

/-- State of the passthrough adapter `bufReadSeeker` (buffer.go). -/
structure BufRS where
  isSeekerDisabled : Bool
  isClosed : Bool
  currentPos : Int
  rs : SeekerSrc
deriving DecidableEq, Repr

/-- `bufReadSeeker.Seek`: forwards to the underlying seeker; on any failure it
reports the stored `currentPos` and leaves it untouched. -/
def bufRSSeek (b : BufRS) (offset : Int) (whence : Nat) : Int × Option GoErr × BufRS :=
  if b.isClosed = true then (b.currentPos, some GoErr.closed, b)
  else if b.isSeekerDisabled = true then (b.currentPos, some GoErr.seekerDisabled, b)
  else
    match (rsSeek b.rs offset whence).2.1 with
    | some e => (b.currentPos, some e, { b with rs := (rsSeek b.rs offset whence).2.2 })
    | none => ((rsSeek b.rs offset whence).1, none, { b with rs := (rsSeek b.rs offset whence).2.2, currentPos := (rsSeek b.rs offset whence).1 })

/-- Interfaces a dynamic `io.Reader` argument of `NewReader` implements.
In Go, `BufferReadSeekCloser` embeds `io.ReadSeekCloser`, so `impBRSC = true`
forces the other two. -/
structure DynReader where
  impBRSC : Bool
  impSeeker : Bool
  impCloser : Bool
deriving DecidableEq, Repr

/-- Result of `bufferReadSeekCloserFactory.NewReader`: either a fresh buffered
engine wrapping the argument as a plain `io.ReadCloser`, or the thin
passthrough adapter around the natively seekable argument. -/
inductive NewReaderRes where
  | buffered (engine : BufReader)
  | passthroughAdapter
deriving DecidableEq, Repr

/-- The type switch of `NewReader` (buffer.go): `BufferReadSeekCloser` is
matched first and becomes the `rc` of a fresh engine; only a remaining
`io.ReadSeeker` gets the passthrough adapter; everything else is (wrapped
into) a `ReadCloser` and buffered. -/
def newReaderModel (r : DynReader) (C : Nat) (s : Src) : NewReaderRes :=
  if r.impBRSC = true then NewReaderRes.buffered (newBufReader C s)
  else if r.impSeeker = true then NewReaderRes.passthroughAdapter
  else NewReaderRes.buffered (newBufReader C s)

/-- `DefaultBufferSize` of types.go. -/
def DefaultBufferSize : Nat := 32 * 1024

/-- The chunk size `newPool` (utils.go) actually uses: a non-positive request
falls back to `DefaultBufferSize`. -/
def newPoolBufSize (bufferSize : Int) : Nat :=
  if bufferSize ≤ 0 then DefaultBufferSize else bufferSize.toNat

/-- A factory option, as applied to the factory under construction: it sets
the factory's pool (`OptionWithSyncPool n` builds `newPool n`; `withPool`
installs a custom pool whose `BufferSize` is given). -/
inductive FactoryOption where
  | withSyncPool (bufferSize : Int)
  | withPool (poolSize : Nat)
deriving DecidableEq, Repr

/-- Applying one option to the current pool choice (`none` = not set yet). -/
def applyOption (_cur : Option Nat) (o : FactoryOption) : Option Nat :=
  match o with
  | FactoryOption.withSyncPool n => some (newPoolBufSize n)
  | FactoryOption.withPool s => some s

/-- `NewBufferReadSeekCloserFactory(options...).BufferSize()`: options run in
order; if none installed a pool, `newPool(DefaultBufferSize)` is used. -/
def factoryBufferSize (opts : List FactoryOption) : Nat :=
  match opts.foldl applyOption none with
  | none => newPoolBufSize (DefaultBufferSize : Nat)
  | some s => s

/-- Invariant of the engine over chunk size `C`, original source data `d0`
and source end-behaviour `ee`, closed under every public operation. -/
structure Inv (C : Nat) (d0 : List Nat) (ee : Option Nat) (b : BufReader) : Prop where
  size : b.bufSize = C
  cpos : 1 ≤ C
  endE : b.src.endErr = ee
  allFull : ∀ i c, i + 1 < b.buffer.length → b.buffer.getD i none = some c → c.length = C
  lastLe : ∀ c, b.buffer.getLast? = some (some c) → c.length ≤ C
  lastSome : b.buffer.getLast? = some none → False
  nilBound : ∀ i, i < b.buffer.length → b.buffer.getD i none = none → (i + 1) * C ≤ b.currentPos
  chunkContent : ∀ i c, b.buffer.getD i none = some c → c = (d0.drop (i * C)).take c.length
  eofData : b.isEofReached = true → b.src.data = []
  count : b.poolGets = b.poolPuts + b.buffer.countP (fun c => c.isSome)
  closedEmpty : b.isClosed = true → b.buffer = []
  fetched : b.isClosed = false → b.buffer ≠ [] → d0.length = getReaderPos b + b.src.data.length
  openNoNil : b.isClosed = false → b.isSeekerDisabled = false →
    ∀ i, i < b.buffer.length → b.buffer.getD i none ≠ none
  openPos : b.isClosed = false → b.isSeekerDisabled = false → b.currentPos ≤ getReaderPos b
  openData : b.isClosed = false → b.isSeekerDisabled = false →
    b.src.data = d0.drop (getReaderPos b)

/-- Conclusions of one `bufReader.read` call started in an open, seek-enabled
state: the invariant survives, only source/buffer/eof-flag/pool-gets change,
and the returned count matches the growth of `getReaderPos`. -/
structure ReadOut (C : Nat) (d0 : List Nat) (ee : Option Nat) (n : Int)
    (b : BufReader) (bytesRead : Nat) (res : Nat × Option GoErr × BufReader) : Prop where
  inv : Inv C d0 ee res.2.2
  closedEq : res.2.2.isClosed = b.isClosed
  disabledEq : res.2.2.isSeekerDisabled = b.isSeekerDisabled
  cpEq : res.2.2.currentPos = b.currentPos
  putsEq : res.2.2.poolPuts = b.poolPuts
  ctxEq : res.2.2.ctxCanceled = b.ctxCanceled
  srcClosedEq : res.2.2.srcClosed = b.srcClosed
  mono : bytesRead ≤ res.1
  rpEq : getReaderPos res.2.2 = getReaderPos b + (res.1 - bytesRead)
  errShape : ee = none → res.2.1 = none ∨ res.2.1 = some GoErr.eof
  errEof : res.2.1 = some GoErr.eof →
    res.1 = bytesRead ∧ res.2.2.isEofReached = true ∧ res.2.2.src.data = []
  errNone : res.2.1 = none →
    (0 ≤ n ∧ n ≤ (res.1 : Int)) ∨ (res.2.2.isEofReached = true ∧ res.2.2.src.data = [])

/-- The 20-byte stream of the repository's tests, as bytes `1..20`. -/
def d20 : List Nat := (List.range 20).map (fun k => k + 1)

/-- The standard test source over `d20`. -/
def s20 : Src := { data := d20, endErr := none }

/-- Fresh engine with chunk size 5 over the 20-byte test source. -/
def eng0 : BufReader := newBufReader 5 s20

/-- A 3-byte source, used to exhibit a partially filled final chunk. -/
def srcAbc : Src := { data := [7, 8, 9], endErr := none }

/-- Engine over the 3-byte source after `Read(3)`: one chunk holding 3 of its
5 bytes, end-of-stream not yet observed. -/
def engAbc : BufReader := (bufRead (newBufReader 5 srcAbc) 3).2.2

/-- The 20-byte engine after `Seek(-3, End)`: everything fetched, EOF seen,
`currentPos = 17`. -/
def eng17 : BufReader := (bufSeek eng0 (-3) 2).2.2

theorem getD_append_left {α : Type} {l g : List α} {i : Nat} {d : α} (h : i < l.length) :
    (l ++ g).getD i d = l.getD i d := by
  simp [List.getD_eq_getElem?_getD, List.getElem?_append, h]

theorem getD_append_right {α : Type} {l g : List α} {i : Nat} {d : α} (h : l.length ≤ i) :
    (l ++ g).getD i d = g.getD (i - l.length) d := by
  simp [List.getD_eq_getElem?_getD, List.getElem?_append_right h]

theorem getD_of_ge {α : Type} {l : List α} {i : Nat} {d : α} (h : l.length ≤ i) :
    l.getD i d = d := by
  simp [List.getD_eq_getElem?_getD, List.getElem?_eq_none h]

theorem getLastD_eq_getD {α : Type} (l : List α) (d : α) (h : l ≠ []) :
    l.getLastD d = l.getD (l.length - 1) d := by
  cases l with
  | nil => exact absurd rfl h
  | cons a t =>
    rw [List.getLastD_eq_getLast?, List.getLast?_eq_getElem?]
    simp [List.getD_eq_getElem?_getD]

theorem getLast?_eq_getD {α : Type} (l : List (Option α)) (h : l ≠ []) :
    l.getLast? = some (l.getD (l.length - 1) none) := by
  cases l with
  | nil => exact absurd rfl h
  | cons a t =>
    rw [List.getLast?_eq_getElem?]
    have hlt : (a :: t).length - 1 < (a :: t).length := by simp
    simp [List.getD_eq_getElem?_getD, List.getElem?_eq_getElem hlt]

theorem getLastD_append_single {α : Type} (l : List α) (a d : α) :
    (l ++ [a]).getLastD d = a := by
  rw [List.getLastD_eq_getLast?]
  simp

theorem srcRead_of_nil {s : Src} (h : s.data = []) (req : Nat) :
    srcRead s req = ([], some (srcEndErr s.endErr), s) := by
  simp [srcRead, h]

theorem srcRead_of_ne {s : Src} (h : s.data ≠ []) (req : Nat) :
    srcRead s req = (s.data.take req, none, { s with data := s.data.drop req }) := by
  simp [srcRead, h]

theorem getReaderPos_of_nil {b : BufReader} (h : b.buffer = []) : getReaderPos b = 0 := by
  simp [getReaderPos, h]

theorem getReaderPos_of_ne {b : BufReader} (h : b.buffer ≠ []) :
    getReaderPos b =
      (b.buffer.length - 1) * b.bufSize + ((b.buffer.getD (b.buffer.length - 1) none).getD []).length := by
  rw [getReaderPos, getLast?_eq_getD b.buffer h]

theorem inv_bufSize {C : Nat} {d0 : List Nat} {ee : Option Nat} {b : BufReader}
    (hinv : Inv C d0 ee b) : 1 ≤ b.bufSize := by
  rw [hinv.size]; exact hinv.cpos

theorem inv_lastLen_le {C : Nat} {d0 : List Nat} {ee : Option Nat} {b : BufReader}
    (hinv : Inv C d0 ee b) (hne : b.buffer ≠ []) :
    ((b.buffer.getD (b.buffer.length - 1) none).getD []).length ≤ C := by
  cases he : b.buffer.getD (b.buffer.length - 1) none with
  | none => simp
  | some c =>
    have hl : b.buffer.getLast? = some (some c) := by
      rw [getLast?_eq_getD b.buffer hne, he]
    simpa using hinv.lastLe c hl

theorem inv_rp_le_mul {C : Nat} {d0 : List Nat} {ee : Option Nat} {b : BufReader}
    (hinv : Inv C d0 ee b) : getReaderPos b ≤ b.buffer.length * C := by
  by_cases hne : b.buffer = []
  · rw [getReaderPos_of_nil hne]; exact Nat.zero_le _
  · rw [getReaderPos_of_ne hne, hinv.size]
    have h1 : ((b.buffer.getD (b.buffer.length - 1) none).getD []).length ≤ C :=
      inv_lastLen_le hinv hne
    have h2 : 1 ≤ b.buffer.length := List.length_pos.mpr hne
    have h3 : (b.buffer.length - 1) * C + C = b.buffer.length * C := by
      have h4 : b.buffer.length - 1 + 1 = b.buffer.length := Nat.succ_pred_eq_of_pos h2
      calc (b.buffer.length - 1) * C + C = (b.buffer.length - 1 + 1) * C := by
            rw [Nat.succ_mul]
        _ = b.buffer.length * C := by rw [h4]
    omega

theorem inv_rp_le_d0 {C : Nat} {d0 : List Nat} {ee : Option Nat} {b : BufReader}
    (hinv : Inv C d0 ee b) : getReaderPos b ≤ d0.length := by
  by_cases hcl : b.isClosed = true
  · rw [getReaderPos_of_nil (hinv.closedEmpty hcl)]; exact Nat.zero_le _
  · by_cases hne : b.buffer = []
    · rw [getReaderPos_of_nil hne]; exact Nat.zero_le _
    · have h := hinv.fetched (by revert hcl; cases b.isClosed <;> simp) hne
      omega

theorem inv_chunk_at {C : Nat} {d0 : List Nat} {ee : Option Nat} {b : BufReader}
    (hinv : Inv C d0 ee b) (hlt : b.currentPos < getReaderPos b) :
    ∃ c, b.buffer.getD (b.currentPos / b.bufSize) none = some c ∧
      c = (d0.drop (b.currentPos / b.bufSize * b.bufSize)).take c.length ∧
      1 ≤ c.length - b.currentPos % b.bufSize ∧
      c.length - b.currentPos % b.bufSize ≤ getReaderPos b - b.currentPos := by
  have hS : 0 < b.bufSize := inv_bufSize hinv
  have hne : b.buffer ≠ [] := by
    intro h
    rw [getReaderPos_of_nil h] at hlt
    omega
  have hl1 : 1 ≤ b.buffer.length := List.length_pos.mpr hne
  have hrp := getReaderPos_of_ne (b := b) hne
  have hi0 : b.currentPos / b.bufSize < b.buffer.length := by
    rw [Nat.div_lt_iff_lt_mul hS]
    calc b.currentPos < getReaderPos b := hlt
      _ ≤ b.buffer.length * C := inv_rp_le_mul hinv
      _ = b.buffer.length * b.bufSize := by rw [hinv.size]
  have hdm : b.currentPos / b.bufSize * b.bufSize + b.currentPos % b.bufSize = b.currentPos := by
    have h := Nat.div_add_mod b.currentPos b.bufSize
    rw [Nat.mul_comm] at h
    exact h
  have hmod : b.currentPos % b.bufSize < b.bufSize := Nat.mod_lt _ hS
  have hmul : (b.currentPos / b.bufSize + 1) * b.bufSize
      = b.currentPos / b.bufSize * b.bufSize + b.bufSize := Nat.succ_mul _ _
  cases he : b.buffer.getD (b.currentPos / b.bufSize) none with
  | none =>
    exfalso
    have hb := hinv.nilBound _ hi0 he
    rw [← hinv.size] at hb
    omega
  | some c =>
    have hcc := hinv.chunkContent _ c he
    rw [← hinv.size] at hcc
    refine ⟨c, rfl, hcc, ?_⟩
    by_cases hi1 : b.currentPos / b.bufSize + 1 < b.buffer.length
    · have hfull : c.length = b.bufSize := by
        rw [hinv.size]; exact hinv.allFull _ c hi1 he
      have hml : (b.currentPos / b.bufSize + 1) * b.bufSize ≤ (b.buffer.length - 1) * b.bufSize :=
        Nat.mul_le_mul_right b.bufSize (by omega)
      have hrpge : (b.buffer.length - 1) * b.bufSize ≤ getReaderPos b := by
        rw [hrp]; omega
      omega
    · have hi2 : b.currentPos / b.bufSize = b.buffer.length - 1 := by omega
      have hrp2 : getReaderPos b = (b.buffer.length - 1) * b.bufSize + c.length := by
        rw [hrp, ← hi2, he]; rfl
      rw [hi2] at hdm
      omega

theorem copyStep_spec {C : Nat} {d0 : List Nat} {ee : Option Nat} {b : BufReader}
    (hinv : Inv C d0 ee b) (hlt : b.currentPos < getReaderPos b) (room : Nat) (hroom : 1 ≤ room) :
    ∃ k, copyStep b room = (d0.drop b.currentPos).take k ∧ (copyStep b room).length = k ∧
      1 ≤ k ∧ k ≤ room ∧ k ≤ getReaderPos b - b.currentPos := by
  obtain ⟨c, he, hcc, hk1, hk2⟩ := inv_chunk_at hinv hlt
  have hdm : b.currentPos / b.bufSize * b.bufSize + b.currentPos % b.bufSize = b.currentPos := by
    have h := Nat.div_add_mod b.currentPos b.bufSize
    rw [Nat.mul_comm] at h
    exact h
  have hchunk : chunkAt b (b.currentPos / b.bufSize) = c := by
    rw [chunkAt, he]; rfl
  have hdropc : c.drop (b.currentPos % b.bufSize)
      = (d0.drop b.currentPos).take (c.length - b.currentPos % b.bufSize) := by
    calc c.drop (b.currentPos % b.bufSize)
        = ((d0.drop (b.currentPos / b.bufSize * b.bufSize)).take c.length).drop
            (b.currentPos % b.bufSize) := by rw [← hcc]
      _ = ((d0.drop (b.currentPos / b.bufSize * b.bufSize)).drop (b.currentPos % b.bufSize)).take
            (c.length - b.currentPos % b.bufSize) := by rw [List.drop_take]
      _ = (d0.drop b.currentPos).take (c.length - b.currentPos % b.bufSize) := by
            rw [List.drop_drop, hdm]
  refine ⟨min room (c.length - b.currentPos % b.bufSize), ?_, ?_, ?_, ?_, ?_⟩
  · rw [copyStep, hchunk, hdropc, List.take_take]
  · rw [copyStep, hchunk, hdropc, List.take_take, List.length_take, List.length_drop]
    have hd0 : getReaderPos b ≤ d0.length := inv_rp_le_d0 hinv
    omega
  · omega
  · omega
  · omega

theorem readToLoop_spec {C : Nat} {d0 : List Nat} {ee : Option Nat} (plen : Nat) :
    ∀ (fuel : Nat) (b : BufReader) (acc : List Nat), Inv C d0 ee b →
      acc.length ≤ plen → plen - acc.length < fuel →
      readToLoop plen fuel b acc =
        (acc ++ (d0.drop b.currentPos).take
            (min (plen - acc.length) (getReaderPos b - b.currentPos)),
          (if getReaderPos b ≤ b.currentPos ∧ b.isEofReached = true ∧ acc.length = 0 then
            some GoErr.eof else none),
          { b with currentPos := b.currentPos
              + min (plen - acc.length) (getReaderPos b - b.currentPos) }) := by
  intro fuel
  induction fuel with
  | zero => intro b acc _ _ hf; omega
  | succ m ih =>
    intro b acc hinv hacc _
    rw [readToLoop]
    by_cases h1 : getReaderPos b ≤ b.currentPos
    · rw [if_pos h1]
      have hz : getReaderPos b - b.currentPos = 0 := by omega
      rw [hz]
      simp only [Nat.min_zero, List.take_zero, List.append_nil, Nat.add_zero]
      have hcond : (b.isEofReached = true ∧ acc.length = 0)
          ↔ (getReaderPos b ≤ b.currentPos ∧ b.isEofReached = true ∧ acc.length = 0) :=
        ⟨fun h => ⟨h1, h⟩, fun h => h.2⟩
      rw [if_congr hcond rfl rfl]
    · rw [if_neg h1]
      by_cases h2 : acc.length = plen
      · rw [if_pos h2]
        have hz : plen - acc.length = 0 := by omega
        rw [hz]
        simp only [Nat.zero_min, List.take_zero, List.append_nil, Nat.add_zero]
        rw [if_neg (fun hc => h1 hc.1)]
      · rw [if_neg h2]
        have hcl : ¬ b.isClosed = true := by
          intro hc
          exact h1 (by rw [getReaderPos_of_nil (hinv.closedEmpty hc)]; exact Nat.zero_le _)
        rw [if_neg hcl]
        have hlt : b.currentPos < getReaderPos b := by omega
        have hroom : 1 ≤ plen - acc.length := by omega
        obtain ⟨k, hpiece, hlen, hk1, hkroom, hkrem⟩ := copyStep_spec hinv hlt _ hroom
        set b2 : BufReader :=
          { b with currentPos := b.currentPos + (copyStep b (plen - acc.length)).length } with hb2
        have hinv2 : Inv C d0 ee b2 := by
          refine ⟨hinv.size, hinv.cpos, hinv.endE, hinv.allFull, hinv.lastLe, hinv.lastSome,
            ?_, hinv.chunkContent, hinv.eofData, hinv.count, hinv.closedEmpty, hinv.fetched,
            hinv.openNoNil, ?_, hinv.openData⟩
          · intro i hi hni
            have hnb : (i + 1) * C ≤ b.currentPos := hinv.nilBound i hi hni
            show (i + 1) * C ≤ b.currentPos + (copyStep b (plen - acc.length)).length
            omega
          · intro hc hd
            have hop := hinv.openPos hc hd
            show b.currentPos + (copyStep b (plen - acc.length)).length ≤ getReaderPos b
            rw [hlen]
            omega
        have hrp2 : getReaderPos b2 = getReaderPos b := rfl
        have hcp2 : b2.currentPos = b.currentPos + k := by rw [hb2]; rw [hlen]
        have hlen2 : (acc ++ copyStep b (plen - acc.length)).length = acc.length + k := by
          rw [List.length_append, hlen]
        rw [ih b2 (acc ++ copyStep b (plen - acc.length)) hinv2 (by omega) (by omega)]
        have hmin : min (plen - acc.length) (getReaderPos b - b.currentPos)
            = k + min (plen - (acc.length + k)) (getReaderPos b - (b.currentPos + k)) := by
          omega
        rw [hrp2, hcp2, hlen2, hmin, if_neg (fun hc => by omega),
          if_neg (fun hc => h1 hc.1), List.take_add, hpiece, List.drop_drop,
          List.append_assoc, Nat.add_assoc]

theorem readTo_spec {C : Nat} {d0 : List Nat} {ee : Option Nat} {b : BufReader}
    (hinv : Inv C d0 ee b) (plen : Nat) :
    readTo b plen =
      ((d0.drop b.currentPos).take (min plen (getReaderPos b - b.currentPos)),
        (if getReaderPos b ≤ b.currentPos ∧ b.isEofReached = true then some GoErr.eof else none),
        { b with currentPos := b.currentPos + min plen (getReaderPos b - b.currentPos) }) := by
  rw [readTo, readToLoop_spec plen (plen + 2) b [] hinv (by simp) (by omega)]
  have hcond : (getReaderPos b ≤ b.currentPos ∧ b.isEofReached = true
      ∧ ([] : List Nat).length = 0) ↔ (getReaderPos b ≤ b.currentPos ∧ b.isEofReached = true) :=
    ⟨fun h => ⟨h.1, h.2.1⟩, fun h => ⟨h.1, h.2, rfl⟩⟩
  rw [if_congr hcond rfl rfl]
  rfl

theorem acquireChunk_cp (b : BufReader) : (acquireChunk b).currentPos = b.currentPos := by
  rw [acquireChunk]
  split <;> rfl

theorem acquireChunk_fields (b : BufReader) :
    (acquireChunk b).src = b.src ∧ (acquireChunk b).currentPos = b.currentPos
    ∧ (acquireChunk b).isClosed = b.isClosed
    ∧ (acquireChunk b).isSeekerDisabled = b.isSeekerDisabled
    ∧ (acquireChunk b).isEofReached = b.isEofReached
    ∧ (acquireChunk b).ctxCanceled = b.ctxCanceled
    ∧ (acquireChunk b).srcClosed = b.srcClosed
    ∧ (acquireChunk b).bufSize = b.bufSize
    ∧ (acquireChunk b).poolPuts = b.poolPuts := by
  rw [acquireChunk]
  split <;> exact ⟨rfl, rfl, rfl, rfl, rfl, rfl, rfl, rfl, rfl⟩

theorem countP_append_some (B : List (Option (List Nat))) (c : List Nat) :
    (B ++ [some c]).countP (fun x => x.isSome) = B.countP (fun x => x.isSome) + 1 := by
  rw [List.countP_append]
  rfl

theorem acquireChunk_decomp {C : Nat} {d0 : List Nat} {ee : Option Nat} {b : BufReader}
    (hinv : Inv C d0 ee b) (hcl : b.isClosed = false) (hsd : b.isSeekerDisabled = false) :
    ∃ B c1, (acquireChunk b).buffer = B ++ [some c1]
      ∧ c1.length < C
      ∧ B.length * C + c1.length = getReaderPos b
      ∧ (∀ i c', B.getD i none = some c' → c'.length = C)
      ∧ (∀ i, i < B.length → B.getD i none ≠ none)
      ∧ (∀ i c', B.getD i none = some c' → c' = (d0.drop (i * C)).take c'.length)
      ∧ c1 = (d0.drop (B.length * C)).take c1.length
      ∧ (acquireChunk b).poolGets + b.buffer.countP (fun x => x.isSome)
          = b.poolGets + (B ++ [some c1]).countP (fun x => x.isSome) := by
  have hnonil := hinv.openNoNil hcl hsd
  by_cases hacq : b.buffer.getLastD none = none
      ∨ ((b.buffer.getLastD none).getD []).length = b.bufSize
  · refine ⟨b.buffer, [], ?_, hinv.cpos, ?_, ?_, ?_, fun i c' h => hinv.chunkContent i c' h,
      by simp, ?_⟩
    · rw [acquireChunk, if_pos hacq]
    · by_cases hne : b.buffer = []
      · rw [hne, getReaderPos_of_nil hne]
        simp
      · have hlast : b.buffer.getLastD none = b.buffer.getD (b.buffer.length - 1) none :=
          getLastD_eq_getD b.buffer none hne
        have hlnn : b.buffer.getD (b.buffer.length - 1) none ≠ none := by
          apply hnonil
          have := List.length_pos.mpr hne
          omega
        rcases hacq with hn | hfull
        · rw [hlast] at hn
          exact absurd hn hlnn
        · rw [hlast, hinv.size] at hfull
          rw [getReaderPos_of_ne hne, hinv.size, hfull]
          have hl1 : 1 ≤ b.buffer.length := List.length_pos.mpr hne
          have hmul : (b.buffer.length - 1) * C + C = b.buffer.length * C := by
            have h4 : b.buffer.length - 1 + 1 = b.buffer.length := Nat.succ_pred_eq_of_pos hl1
            calc (b.buffer.length - 1) * C + C
                = (b.buffer.length - 1 + 1) * C := (Nat.succ_mul _ _).symm
              _ = b.buffer.length * C := by rw [h4]
          simp only [List.length_nil, Nat.add_zero]
          omega
    · intro i c' hic
      by_cases hi : i < b.buffer.length
      · by_cases hi1 : i + 1 < b.buffer.length
        · exact hinv.allFull i c' hi1 hic
        · have hieq : i = b.buffer.length - 1 := by omega
          have hne : b.buffer ≠ [] := by
            intro hh
            rw [hh] at hi
            simp at hi
          have hlast : b.buffer.getLastD none = b.buffer.getD (b.buffer.length - 1) none :=
            getLastD_eq_getD b.buffer none hne
          rcases hacq with hn | hfull
          · rw [hlast, ← hieq, hic] at hn
            exact absurd hn (by simp)
          · rw [hlast, ← hieq, hic] at hfull
            rw [hinv.size] at hfull
            exact hfull
      · rw [getD_of_ge (by omega)] at hic
        exact absurd hic (by simp)
    · exact fun i hi => hnonil i hi
    · have hpg : (acquireChunk b).poolGets = b.poolGets + 1 := by
        rw [acquireChunk, if_pos hacq]
      rw [hpg, countP_append_some]
      omega
  · refine ?_
    have hne : b.buffer ≠ [] := by
      intro hh
      exact hacq (Or.inl (by rw [hh]; rfl))
    have hlast : b.buffer.getLastD none = b.buffer.getD (b.buffer.length - 1) none :=
      getLastD_eq_getD b.buffer none hne
    push_neg at hacq
    obtain ⟨hn, hfull⟩ := hacq
    cases hoc : b.buffer.getLastD none with
    | none => exact absurd hoc hn
    | some c =>
      have hdecomp : b.buffer = b.buffer.dropLast ++ [some c] := by
        have h1 : b.buffer.getLast? = some (some c) := by
          rw [getLast?_eq_getD b.buffer hne, ← hlast, hoc]
        have h2 := List.dropLast_append_getLast? (some c) h1
        exact h2.symm
      have hlen : b.buffer.dropLast.length = b.buffer.length - 1 := List.length_dropLast _
      have hgetc : b.buffer.getD (b.buffer.length - 1) none = some c := by rw [← hlast, hoc]
      refine ⟨b.buffer.dropLast, c, ?_, ?_, ?_, ?_, ?_, ?_, ?_, ?_⟩
      · rw [acquireChunk, if_neg ?_]
        · exact hdecomp
        · push_neg
          exact ⟨hn, fun hc => hfull (by rw [hc])⟩
      · have hle : c.length ≤ C := hinv.lastLe c (by rw [getLast?_eq_getD b.buffer hne, hgetc])
        have hneq : c.length ≠ C := by
          intro hc
          apply hfull
          rw [hoc, hinv.size]
          exact hc
        omega
      · rw [getReaderPos_of_ne hne, hgetc, hinv.size, hlen]
        rfl
      · intro i c' hic
        have hi : i < b.buffer.dropLast.length := by
          by_contra hge
          rw [getD_of_ge (by omega)] at hic
          exact Option.noConfusion hic
        have h := getD_append_left (l := b.buffer.dropLast) (g := [some c]) (d := none) hi
        rw [← hdecomp] at h
        exact hinv.allFull i c' (by omega) (h.trans hic)
      · intro i hi
        have h := getD_append_left (l := b.buffer.dropLast) (g := [some c]) (d := none) hi
        rw [← hdecomp] at h
        rw [← h]
        exact hnonil i (by omega)
      · intro i c' hic
        have hi : i < b.buffer.dropLast.length := by
          by_contra hge
          rw [getD_of_ge (by omega)] at hic
          exact Option.noConfusion hic
        have h := getD_append_left (l := b.buffer.dropLast) (g := [some c]) (d := none) hi
        rw [← hdecomp] at h
        exact hinv.chunkContent i c' (h.trans hic)
      · have hcc := hinv.chunkContent (b.buffer.length - 1) c hgetc
        rw [hlen]
        exact hcc
      · rw [acquireChunk, if_neg ?_]
        · conv_lhs => rw [hdecomp, countP_append_some]
          conv_rhs => rw [countP_append_some]
        · push_neg
          exact ⟨hn, fun hc => hfull (by rw [hc])⟩

theorem srcRead_spec (s : Src) (req : Nat) :
    (srcRead s req).2.2.data = s.data.drop (srcRead s req).1.length
    ∧ (srcRead s req).1 = s.data.take (srcRead s req).1.length
    ∧ (srcRead s req).1.length ≤ s.data.length
    ∧ (srcRead s req).1.length ≤ req
    ∧ (srcRead s req).2.2.endErr = s.endErr
    ∧ (s.data = [] → (srcRead s req).1 = []
        ∧ (srcRead s req).2.1 = some (srcEndErr s.endErr)
        ∧ (srcRead s req).2.2 = s)
    ∧ (s.data ≠ [] → (srcRead s req).2.1 = none ∧ (1 ≤ req → 1 ≤ (srcRead s req).1.length)) := by
  by_cases hd : s.data = []
  · rw [srcRead_of_nil hd]
    refine ⟨rfl, rfl, by simp, by simp, rfl, fun _ => ⟨rfl, rfl, rfl⟩,
      fun hne => absurd hd hne⟩
  · rw [srcRead_of_ne hd]
    have hlen : (s.data.take req).length = min req s.data.length := List.length_take req s.data
    have htt : s.data.take req = s.data.take (s.data.take req).length := by
      rw [hlen]
      by_cases hc : req ≤ s.data.length
      · rw [min_eq_left hc]
      · rw [min_eq_right (by omega), List.take_length, List.take_of_length_le (by omega)]
    have hdd : s.data.drop req = s.data.drop (s.data.take req).length := by
      rw [hlen]
      by_cases hc : req ≤ s.data.length
      · rw [min_eq_left hc]
      · rw [min_eq_right (by omega), List.drop_length, List.drop_of_length_le (by omega)]
    have hpos : 0 < s.data.length := List.length_pos.mpr hd
    refine ⟨?_, ?_, ?_, ?_, rfl, fun h => absurd h hd, fun _ => ⟨rfl, fun hreq => ?_⟩⟩
    · show s.data.drop req = s.data.drop (s.data.take req).length
      exact hdd
    · show s.data.take req = s.data.take (s.data.take req).length
      exact htt
    · show (s.data.take req).length ≤ s.data.length
      omega
    · show (s.data.take req).length ≤ req
      omega
    · show 1 ≤ (s.data.take req).length
      omega

theorem readStep_spec {C : Nat} {d0 : List Nat} {ee : Option Nat} {b : BufReader}
    (hinv : Inv C d0 ee b) (hcl : b.isClosed = false) (hsd : b.isSeekerDisabled = false) :
    Inv C d0 ee (readStep b).2.2
    ∧ (readStep b).2.2.isClosed = false
    ∧ (readStep b).2.2.isSeekerDisabled = false
    ∧ (readStep b).2.2.currentPos = b.currentPos
    ∧ (readStep b).2.2.poolPuts = b.poolPuts
    ∧ (readStep b).2.2.ctxCanceled = b.ctxCanceled
    ∧ (readStep b).2.2.srcClosed = b.srcClosed
    ∧ (readStep b).2.2.isEofReached = b.isEofReached
    ∧ getReaderPos (readStep b).2.2 = getReaderPos b + (readStep b).1
    ∧ (readStep b).2.2.src.data = b.src.data.drop (readStep b).1
    ∧ (b.src.data = [] → (readStep b).1 = 0
        ∧ (readStep b).2.1 = some (srcEndErr ee))
    ∧ (b.src.data ≠ [] → (readStep b).2.1 = none ∧ 1 ≤ (readStep b).1) := by
  obtain ⟨B, c1, h1, h2, h3, h4, h5, h8, h6, h7⟩ := acquireChunk_decomp hinv hcl hsd
  obtain ⟨hfsrc, hfcp, hfcl, hfsd, hfef, hfctx, hfsc, hfbs, hfpp⟩ := acquireChunk_fields b
  have hlastD : (acquireChunk b).buffer.getLastD none = some c1 := by
    rw [h1, getLastD_append_single]
  have hspare : 1 ≤ b.bufSize - c1.length := by
    have hC := inv_bufSize hinv
    rw [hinv.size]
    omega
  set sr := srcRead b.src (b.bufSize - c1.length) with hsr
  obtain ⟨hs1, hs2, hs3, hs4, hs5, hsEmpty, hsNe⟩ := srcRead_spec b.src (b.bufSize - c1.length)
  rw [← hsr] at hs1 hs2 hs3 hs4 hs5 hsEmpty hsNe
  obtain ⟨b2, hrs, hbuf, hsrc2, hbs2, hcp2, hcl2, hsd2, hef2, hctx2, hsc2, hpg2, hpp2⟩ :
      ∃ b2, readStep b = (sr.1.length, sr.2.1, b2)
        ∧ b2.buffer = B ++ [some (c1 ++ sr.1)]
        ∧ b2.src = sr.2.2
        ∧ b2.bufSize = b.bufSize
        ∧ b2.currentPos = b.currentPos
        ∧ b2.isClosed = b.isClosed
        ∧ b2.isSeekerDisabled = b.isSeekerDisabled
        ∧ b2.isEofReached = b.isEofReached
        ∧ b2.ctxCanceled = b.ctxCanceled
        ∧ b2.srcClosed = b.srcClosed
        ∧ b2.poolGets = (acquireChunk b).poolGets
        ∧ b2.poolPuts = b.poolPuts := by
    refine ⟨{ acquireChunk b with src := sr.2.2, buffer := B ++ [some (c1 ++ sr.1)] }, ?_, rfl, rfl, hfbs, hfcp, hfcl, hfsd, hfef, hfctx, hfsc, rfl, hfpp⟩
    have hdl : (acquireChunk b).buffer.dropLast = B := by rw [h1, List.dropLast_concat]
    rw [readStep, fillLast, hlastD, Option.getD_some, hdl, hfsrc, hfbs, ← hsr, ← hfbs]
  have hdata := hinv.openData hcl hsd
  have hrple := inv_rp_le_d0 hinv
  have hd0len : d0.length = getReaderPos b + b.src.data.length := by
    rw [hdata, List.length_drop]
    omega
  have hk1 : (c1 ++ sr.1).length = c1.length + sr.1.length := List.length_append _ _
  have hne2 : b2.buffer ≠ [] := by rw [hbuf]; simp
  have hlen2 : b2.buffer.length = B.length + 1 := by rw [hbuf]; simp
  have hgdlast : b2.buffer.getD B.length none = some (c1 ++ sr.1) := by
    rw [hbuf, getD_append_right (Nat.le_refl _), Nat.sub_self]
    rfl
  have hlast2 : b2.buffer.getLast? = some (some (c1 ++ sr.1)) := by rw [hbuf]; simp
  have hrpl : getReaderPos b2 = getReaderPos b + sr.1.length := by
    rw [getReaderPos_of_ne hne2, hlen2, Nat.add_sub_cancel, hgdlast, hbs2]
    show B.length * b.bufSize + (c1 ++ sr.1).length = getReaderPos b + sr.1.length
    rw [hk1, hinv.size]
    omega
  have hxdata : (d0.drop (B.length * C)).drop c1.length = b.src.data := by
    rw [List.drop_drop, h3, ← hdata]
  have hcontent : c1 ++ sr.1 = (d0.drop (B.length * C)).take (c1 ++ sr.1).length := by
    rw [hk1, List.take_add, ← h6, hxdata, ← hs2]
  have hlenle : (c1 ++ sr.1).length ≤ C := by
    rw [hk1]
    have hsz := hinv.size
    omega
  have hinv2 : Inv C d0 ee b2 := by
    refine ⟨?_, hinv.cpos, ?_, ?_, ?_, ?_, ?_, ?_, ?_, ?_, ?_, ?_, ?_, ?_, ?_⟩
    · rw [hbs2, hinv.size]
    · rw [hsrc2, hs5, hinv.endE]
    · intro i c' hi hic
      rw [hlen2] at hi
      have hib : i < B.length := by omega
      rw [hbuf, getD_append_left hib] at hic
      exact h4 i c' hic
    · intro c' hc'
      rw [hlast2] at hc'
      have hcc : c' = c1 ++ sr.1 := by
        injection hc' with hh
        injection hh with hh2
        exact hh2.symm
      rw [hcc]
      exact hlenle
    · intro hc'
      rw [hlast2] at hc'
      injection hc' with hh
      exact Option.noConfusion hh
    · intro i hi hn
      rw [hlen2] at hi
      by_cases hib : i < B.length
      · rw [hbuf, getD_append_left hib] at hn
        exact absurd hn (h5 i hib)
      · have hieq : i = B.length := by omega
        rw [hieq, hgdlast] at hn
        exact Option.noConfusion hn
    · intro i c' hic
      by_cases hib : i < B.length
      · rw [hbuf, getD_append_left hib] at hic
        exact h8 i c' hic
      · by_cases hieq : i = B.length
        · rw [hieq, hgdlast] at hic
          have hcc : c' = c1 ++ sr.1 := by
            injection hic with hh
            exact hh.symm
          rw [hcc, hieq]
          exact hcontent
        · rw [getD_of_ge (by rw [hlen2] at *; omega)] at hic
          exact Option.noConfusion hic
    · intro hef
      have hef3 : b.isEofReached = true := by rw [← hef2]; exact hef
      have hde : b.src.data = [] := hinv.eofData hef3
      rw [hsrc2, (hsEmpty hde).2.2, hde]
    · rw [hpg2, hpp2, hbuf, countP_append_some]
      rw [countP_append_some] at h7
      have hcnt := hinv.count
      omega
    · intro hcc
      rw [hcl2, hcl] at hcc
      exact Bool.noConfusion hcc
    · intro _ _
      rw [hrpl, hsrc2, hs1, List.length_drop]
      omega
    · intro _ _ i hi
      rw [hlen2] at hi
      by_cases hib : i < B.length
      · rw [hbuf, getD_append_left hib]
        exact h5 i hib
      · have hieq : i = B.length := by omega
        rw [hieq, hgdlast]
        simp
    · intro _ _
      rw [hcp2, hrpl]
      have hop := hinv.openPos hcl hsd
      omega
    · intro _ _
      rw [hsrc2, hs1, hrpl, hdata, List.drop_drop]
  refine ⟨?_, ?_, ?_, ?_, ?_, ?_, ?_, ?_, ?_, ?_, ?_, ?_⟩
  · rw [hrs]; exact hinv2
  · rw [hrs]; show b2.isClosed = false; rw [hcl2]; exact hcl
  · rw [hrs]; show b2.isSeekerDisabled = false; rw [hsd2]; exact hsd
  · rw [hrs]; exact hcp2
  · rw [hrs]; exact hpp2
  · rw [hrs]; exact hctx2
  · rw [hrs]; exact hsc2
  · rw [hrs]; exact hef2
  · rw [hrs]; exact hrpl
  · rw [hrs]; show b2.src.data = b.src.data.drop sr.1.length; rw [hsrc2]; exact hs1
  · intro hde
    rw [hrs]
    have hz : sr.1.length = 0 := by rw [(hsEmpty hde).1]; rfl
    have hmm := (hsEmpty hde).2.1
    rw [hinv.endE] at hmm
    exact ⟨hz, hmm⟩
  · intro hde
    rw [hrs]
    exact ⟨(hsNe hde).1, (hsNe hde).2 hspare⟩

theorem readStep_cp (b : BufReader) : (readStep b).2.2.currentPos = b.currentPos := by
  have h : (readStep b).2.2.currentPos = (acquireChunk b).currentPos := rfl
  rw [h, acquireChunk_cp]

theorem readLoop_ind {C : Nat} {d0 : List Nat} {ee : Option Nat} (n : Int) :
    ∀ (fuel : Nat) (b : BufReader) (bytesRead : Nat) (err : Option GoErr),
      Inv C d0 ee b → b.isClosed = false → b.isSeekerDisabled = false →
      (err = some GoErr.eof → b.src.data = []) →
      (err = none ∨ err = some GoErr.eof ∨ ∃ e, ee = some e ∧ err = some (GoErr.other e)) →
      (if err = none then b.src.data.length + 2 else 1) ≤ fuel →
      ReadOut C d0 ee n b bytesRead (readLoop n fuel b bytesRead err)
      ∧ (b.isEofReached = false →
          (readLoop n fuel b bytesRead err).2.1 = some GoErr.eof → bytesRead = 0) := by
  intro fuel
  induction fuel with
  | zero =>
    intro b bytesRead err _ _ _ _ _ hfuel
    by_cases he : err = none
    · rw [if_pos he] at hfuel; omega
    · rw [if_neg he] at hfuel; omega
  | succ m ih =>
    intro b bytesRead err hinv hcl hsd heofd herrok hfuel
    rw [readLoop]
    by_cases hEof : b.isEofReached = true
    · rw [if_pos hEof]
      refine ⟨⟨hinv, rfl, rfl, rfl, rfl, rfl, rfl, Nat.le_refl _, by show getReaderPos b = getReaderPos b + (bytesRead - bytesRead); omega,
        fun _ => Or.inr rfl, fun _ => ⟨rfl, hEof, hinv.eofData hEof⟩,
        fun h => Option.noConfusion h⟩, fun hef _ => ?_⟩
      rw [hEof] at hef
      exact Bool.noConfusion hef
    · rw [if_neg hEof]
      have hbef : b.isEofReached = false := by
        revert hEof; cases b.isEofReached <;> simp
      by_cases hE2 : err = some GoErr.eof
      · rw [if_pos hE2]
        have hde : b.src.data = [] := heofd hE2
        have hinv2 : Inv C d0 ee { b with isEofReached := true } := by
          refine ⟨hinv.size, hinv.cpos, hinv.endE, hinv.allFull, hinv.lastLe, hinv.lastSome,
            hinv.nilBound, hinv.chunkContent, fun _ => hde, hinv.count, hinv.closedEmpty,
            hinv.fetched, hinv.openNoNil, hinv.openPos, hinv.openData⟩
        by_cases hb : 0 < bytesRead
        · rw [if_pos hb]
          exact ⟨⟨hinv2, rfl, rfl, rfl, rfl, rfl, rfl, Nat.le_refl _, by show getReaderPos b = getReaderPos b + (bytesRead - bytesRead); omega,
            fun _ => Or.inl rfl, fun h => Option.noConfusion h,
            fun _ => Or.inr ⟨rfl, hde⟩⟩, fun _ h => Option.noConfusion h⟩
        · rw [if_neg hb]
          exact ⟨⟨hinv2, rfl, rfl, rfl, rfl, rfl, rfl, Nat.le_refl _, by show getReaderPos b = getReaderPos b + (bytesRead - bytesRead); omega,
            fun _ => Or.inr rfl, fun _ => ⟨rfl, rfl, hde⟩,
            fun h => Option.noConfusion h⟩, fun _ _ => by omega⟩
      · rw [if_neg hE2]
        by_cases hE3 : err ≠ none
        · rw [if_pos hE3]
          refine ⟨⟨hinv, rfl, rfl, rfl, rfl, rfl, rfl, Nat.le_refl _, by show getReaderPos b = getReaderPos b + (bytesRead - bytesRead); omega,
            fun hee => ?_, fun h => absurd h hE2, fun h => absurd h hE3⟩,
            fun _ h => absurd h hE2⟩
          rcases herrok with h1 | h1 | ⟨e, he1, _⟩
          · exact absurd h1 hE3
          · exact absurd h1 hE2
          · rw [hee] at he1
            exact Option.noConfusion he1
        · rw [if_neg hE3]
          have herr : err = none := not_not.mp hE3
          by_cases hE4 : 0 ≤ n ∧ n ≤ (bytesRead : Int)
          · rw [if_pos hE4]
            refine ⟨⟨hinv, rfl, rfl, rfl, rfl, rfl, rfl, Nat.le_refl _, by show getReaderPos b = getReaderPos b + (bytesRead - bytesRead); omega,
              fun _ => Or.inl herr, fun h => absurd h hE2,
              fun _ => Or.inl ⟨hE4.1, hE4.2⟩⟩, fun _ h => absurd h hE2⟩
          · rw [if_neg hE4]
            rw [if_pos herr] at hfuel
            obtain ⟨rinv, rcl, rsd, rcp, rpp, rctx, rsc, ref, rrp, rdata, rEmpty, rNe⟩ :=
              readStep_spec hinv hcl hsd
            have hef2 : (readStep b).2.2.isEofReached = false := by rw [ref]; exact hbef
            have heofd2 : (readStep b).2.1 = some GoErr.eof → (readStep b).2.2.src.data = [] := by
              intro h
              by_cases hd : b.src.data = []
              · rw [rdata, hd]
                exact List.drop_nil
              · rw [(rNe hd).1] at h
                exact Option.noConfusion h
            have herrok2 : (readStep b).2.1 = none ∨ (readStep b).2.1 = some GoErr.eof
                ∨ ∃ e, ee = some e ∧ (readStep b).2.1 = some (GoErr.other e) := by
              by_cases hd : b.src.data = []
              · cases hee : ee with
                | none =>
                  refine Or.inr (Or.inl ?_)
                  rw [(rEmpty hd).2, hee]
                  rfl
                | some e =>
                  refine Or.inr (Or.inr ⟨e, rfl, ?_⟩)
                  rw [(rEmpty hd).2, hee]
                  rfl
              · exact Or.inl (rNe hd).1
            have hfuel2 : (if (readStep b).2.1 = none then (readStep b).2.2.src.data.length + 2
                else 1) ≤ m := by
              by_cases hd : b.src.data = []
              · have hsome := heofd2
                rw [if_neg ?_]
                · omega
                · by_cases hee : ee = none
                  · rw [(rEmpty hd).2, hee]
                    simp [srcEndErr]
                  · rw [(rEmpty hd).2]
                    cases heec : ee with
                    | none => exact absurd heec hee
                    | some e => simp [srcEndErr]
              · rw [if_pos (rNe hd).1, rdata, List.length_drop]
                have ht1 := (rNe hd).2
                have hdl : 1 ≤ b.src.data.length := by
                  cases hdc : b.src.data with
                  | nil => exact absurd hdc hd
                  | cons a t => simp
                omega
            obtain ⟨IH1, IH2⟩ := ih (readStep b).2.2 (bytesRead + (readStep b).1)
              (readStep b).2.1 rinv rcl rsd heofd2 herrok2 hfuel2
            have hbd : bytesRead + (readStep b).1
                ≤ (readLoop n m (readStep b).2.2 (bytesRead + (readStep b).1)
                    (readStep b).2.1).1 := IH1.mono
            refine ⟨⟨IH1.inv, IH1.closedEq.trans (rcl.trans hcl.symm),
              IH1.disabledEq.trans (rsd.trans hsd.symm), IH1.cpEq.trans rcp,
              IH1.putsEq.trans rpp, IH1.ctxEq.trans rctx, IH1.srcClosedEq.trans rsc,
              by omega, ?_, IH1.errShape, ?_, IH1.errNone⟩, ?_⟩
            · have h1 := IH1.rpEq
              rw [rrp] at h1
              omega
            · intro h
              have h2 := IH1.errEof h
              have h3 := IH2 hef2 h
              exact ⟨by omega, h2.2.1, h2.2.2⟩
            · intro _ h
              have h3 := IH2 hef2 h
              omega

theorem read_spec {C : Nat} {d0 : List Nat} {ee : Option Nat} {b : BufReader}
    (hinv : Inv C d0 ee b) (hcl : b.isClosed = false) (hsd : b.isSeekerDisabled = false)
    (n : Int) : ReadOut C d0 ee n b 0 (read b n) := by
  rw [read]
  exact (readLoop_ind n (b.src.data.length + 2) b 0 none hinv hcl hsd
    (fun h => Option.noConfusion h) (Or.inl rfl) (by rw [if_pos rfl])).1

theorem cleanUpEntries_all (crp : Nat) :
    ∀ (i : Nat) (l : List (Option (List Nat))),
      cleanUpEntries true crp i l = (l.map (fun _ => none), l.countP (fun x => x.isSome)) := by
  intro i l
  induction l generalizing i with
  | nil => rfl
  | cons c rest ihl =>
    rw [cleanUpEntries]
    rw [if_neg (by simp)]
    rw [ihl (i + 1), List.countP_cons]
    cases c <;> simp

theorem cleanUpEntries_part (crp : Nat) :
    ∀ (k i : Nat) (l : List (Option (List Nat))), i + k = crp →
      cleanUpEntries false crp i l
        = ((l.take k).map (fun _ => none) ++ l.drop k, (l.take k).countP (fun x => x.isSome)) := by
  intro k
  induction k with
  | zero =>
    intro i l hik
    cases l with
    | nil => rfl
    | cons c rest =>
      rw [cleanUpEntries, if_pos (by constructor <;> [rfl; omega])]
      simp
  | succ k2 ihk =>
    intro i l hik
    cases l with
    | nil => rfl
    | cons c rest =>
      rw [cleanUpEntries, if_neg (by intro hc; omega)]
      rw [ihk (i + 1) rest (by omega)]
      rw [List.take_succ_cons, List.countP_cons, List.drop_succ_cons]
      cases c <;> simp

theorem cleanUpBuffer_all (b : BufReader) :
    cleanUpBuffer b true = { b with buffer := [], poolPuts := b.poolPuts + b.buffer.countP (fun x => x.isSome) } := by
  rw [cleanUpBuffer, cleanUpEntries_all]
  rw [if_pos (Or.inl rfl)]

theorem cleanUpBuffer_complete (b : BufReader) (hge : b.buffer.length ≤ b.currentPos / b.bufSize) :
    cleanUpBuffer b false = { b with buffer := [], poolPuts := b.poolPuts + b.buffer.countP (fun x => x.isSome) } := by
  rw [cleanUpBuffer, cleanUpEntries_part (b.currentPos / b.bufSize) (b.currentPos / b.bufSize) 0
    b.buffer (by omega)]
  rw [if_pos (Or.inr hge)]
  rw [List.take_of_length_le hge]

theorem cleanUpBuffer_part (b : BufReader) (hlt : b.currentPos / b.bufSize < b.buffer.length) :
    cleanUpBuffer b false = { b with buffer := (b.buffer.take (b.currentPos / b.bufSize)).map (fun _ => none) ++ b.buffer.drop (b.currentPos / b.bufSize), poolPuts := b.poolPuts + (b.buffer.take (b.currentPos / b.bufSize)).countP (fun x => x.isSome) } := by
  rw [cleanUpBuffer, cleanUpEntries_part (b.currentPos / b.bufSize) (b.currentPos / b.bufSize) 0
    b.buffer (by omega)]
  rw [if_neg (by push_neg; exact ⟨by simp, by omega⟩)]

theorem readTo_out {C : Nat} {d0 : List Nat} {ee : Option Nat} {b : BufReader}
    (hinv : Inv C d0 ee b) (plen : Nat) :
    (readTo b plen).1
      = (d0.drop b.currentPos).take (min plen (getReaderPos b - b.currentPos)) := by
  rw [readTo_spec hinv plen]

theorem readTo_err {C : Nat} {d0 : List Nat} {ee : Option Nat} {b : BufReader}
    (hinv : Inv C d0 ee b) (plen : Nat) :
    (readTo b plen).2.1
      = (if getReaderPos b ≤ b.currentPos ∧ b.isEofReached = true then some GoErr.eof
        else none) := by
  rw [readTo_spec hinv plen]

theorem readTo_cp {C : Nat} {d0 : List Nat} {ee : Option Nat} {b : BufReader}
    (hinv : Inv C d0 ee b) (plen : Nat) :
    (readTo b plen).2.2.currentPos
      = b.currentPos + min plen (getReaderPos b - b.currentPos) := by
  rw [readTo_spec hinv plen]

theorem readTo_closed {C : Nat} {d0 : List Nat} {ee : Option Nat} {b : BufReader}
    (hinv : Inv C d0 ee b) (plen : Nat) :
    (readTo b plen).2.2.isClosed = b.isClosed := by
  rw [readTo_spec hinv plen]

theorem readTo_disabled {C : Nat} {d0 : List Nat} {ee : Option Nat} {b : BufReader}
    (hinv : Inv C d0 ee b) (plen : Nat) :
    (readTo b plen).2.2.isSeekerDisabled = b.isSeekerDisabled := by
  rw [readTo_spec hinv plen]

theorem readTo_eofFlag {C : Nat} {d0 : List Nat} {ee : Option Nat} {b : BufReader}
    (hinv : Inv C d0 ee b) (plen : Nat) :
    (readTo b plen).2.2.isEofReached = b.isEofReached := by
  rw [readTo_spec hinv plen]

theorem readTo_src {C : Nat} {d0 : List Nat} {ee : Option Nat} {b : BufReader}
    (hinv : Inv C d0 ee b) (plen : Nat) : (readTo b plen).2.2.src = b.src := by
  rw [readTo_spec hinv plen]

theorem readTo_buffer {C : Nat} {d0 : List Nat} {ee : Option Nat} {b : BufReader}
    (hinv : Inv C d0 ee b) (plen : Nat) : (readTo b plen).2.2.buffer = b.buffer := by
  rw [readTo_spec hinv plen]

theorem readTo_rp {C : Nat} {d0 : List Nat} {ee : Option Nat} {b : BufReader}
    (hinv : Inv C d0 ee b) (plen : Nat) :
    getReaderPos (readTo b plen).2.2 = getReaderPos b := by
  rw [readTo_spec hinv plen]
  rfl

theorem readTo_puts {C : Nat} {d0 : List Nat} {ee : Option Nat} {b : BufReader}
    (hinv : Inv C d0 ee b) (plen : Nat) : (readTo b plen).2.2.poolPuts = b.poolPuts := by
  rw [readTo_spec hinv plen]

theorem readTo_gets {C : Nat} {d0 : List Nat} {ee : Option Nat} {b : BufReader}
    (hinv : Inv C d0 ee b) (plen : Nat) : (readTo b plen).2.2.poolGets = b.poolGets := by
  rw [readTo_spec hinv plen]

theorem readTo_ctx {C : Nat} {d0 : List Nat} {ee : Option Nat} {b : BufReader}
    (hinv : Inv C d0 ee b) (plen : Nat) : (readTo b plen).2.2.ctxCanceled = b.ctxCanceled := by
  rw [readTo_spec hinv plen]

theorem readTo_srcClosed {C : Nat} {d0 : List Nat} {ee : Option Nat} {b : BufReader}
    (hinv : Inv C d0 ee b) (plen : Nat) : (readTo b plen).2.2.srcClosed = b.srcClosed := by
  rw [readTo_spec hinv plen]

theorem readTo_out_len {C : Nat} {d0 : List Nat} {ee : Option Nat} {b : BufReader}
    (hinv : Inv C d0 ee b) (plen : Nat) :
    (readTo b plen).1.length = min plen (getReaderPos b - b.currentPos) := by
  rw [readTo_out hinv plen, List.length_take, List.length_drop]
  have h1 := inv_rp_le_d0 hinv
  omega

theorem inv_readTo {C : Nat} {d0 : List Nat} {ee : Option Nat} {b : BufReader}
    (hinv : Inv C d0 ee b) (plen : Nat) : Inv C d0 ee (readTo b plen).2.2 := by
  rw [readTo_spec hinv plen]
  refine ⟨hinv.size, hinv.cpos, hinv.endE, hinv.allFull, hinv.lastLe, hinv.lastSome,
    ?_, hinv.chunkContent, hinv.eofData, hinv.count, hinv.closedEmpty, hinv.fetched,
    hinv.openNoNil, ?_, hinv.openData⟩
  · intro i hi hni
    have hnb : (i + 1) * C ≤ b.currentPos := hinv.nilBound i hi hni
    show (i + 1) * C ≤ b.currentPos + min plen (getReaderPos b - b.currentPos)
    omega
  · intro hc hd
    have hop := hinv.openPos hc hd
    show b.currentPos + min plen (getReaderPos b - b.currentPos) ≤ getReaderPos b
    omega

theorem fetch_drain_spec {C : Nat} {d0 : List Nat} {b : BufReader}
    (hinv : Inv C d0 none b) (hcl : b.isClosed = false) (hsd : b.isSeekerDisabled = false)
    (hcp : b.currentPos = getReaderPos b) (k : Nat) (hk : 1 ≤ k) :
    (0 < (read b (k : Int)).1 →
      (readTo (read b (k : Int)).2.2 k).1
          = (d0.drop b.currentPos).take (min k (d0.length - b.currentPos))
        ∧ (readTo (read b (k : Int)).2.2 k).2.2.currentPos
          = b.currentPos + (readTo (read b (k : Int)).2.2 k).1.length
        ∧ Inv C d0 none (readTo (read b (k : Int)).2.2 k).2.2
        ∧ (readTo (read b (k : Int)).2.2 k).2.2.isClosed = false
        ∧ (readTo (read b (k : Int)).2.2 k).2.2.isSeekerDisabled = false)
    ∧ ((read b (k : Int)).1 = 0 →
      d0.length = b.currentPos
        ∧ (read b (k : Int)).2.2.currentPos = b.currentPos
        ∧ Inv C d0 none (read b (k : Int)).2.2
        ∧ (read b (k : Int)).2.2.isClosed = false
        ∧ (read b (k : Int)).2.2.isSeekerDisabled = false) := by
  have R := read_spec hinv hcl hsd (k : Int)
  have hrple2 := inv_rp_le_d0 R.inv
  have hrp2 : getReaderPos (read b (k : Int)).2.2 = getReaderPos b + (read b (k : Int)).1 := by
    have h := R.rpEq
    have h2 := R.mono
    omega
  have hdrained : (read b (k : Int)).2.2.src.data = []
      → d0.length = getReaderPos (read b (k : Int)).2.2 := by
    intro hdempty
    have hod := R.inv.openData (R.closedEq.trans hcl) (R.disabledEq.trans hsd)
    rw [hdempty] at hod
    have hge : d0.length ≤ getReaderPos (read b (k : Int)).2.2 := by
      by_contra hgt
      push_neg at hgt
      have hne : d0.drop (getReaderPos (read b (k : Int)).2.2) ≠ [] := by
        intro hh
        have hld := List.length_drop (getReaderPos (read b (k : Int)).2.2) d0
        rw [hh] at hld
        simp at hld
        omega
      exact hne hod.symm
    omega
  constructor
  · intro hpos
    have herr : (read b (k : Int)).2.1 = none := by
      rcases R.errShape rfl with h | h
      · exact h
      · have h2 := R.errEof h
        omega
    have hkcase : min k (getReaderPos (read b (k : Int)).2.2 - b.currentPos)
        = min k (d0.length - b.currentPos) := by
      rcases R.errNone herr with ⟨_, hle⟩ | ⟨_, hdempty⟩
      · have hkk : (k : Int) ≤ ((read b (k : Int)).1 : Int) := hle
        have hkk2 : k ≤ (read b (k : Int)).1 := by exact_mod_cast hkk
        omega
      · have := hdrained hdempty
        omega
    refine ⟨?_, ?_, inv_readTo R.inv k, (readTo_closed R.inv k).trans (R.closedEq.trans hcl),
      (readTo_disabled R.inv k).trans (R.disabledEq.trans hsd)⟩
    · rw [readTo_out R.inv k, R.cpEq, hkcase]
    · rw [readTo_cp R.inv k, readTo_out_len R.inv k, R.cpEq]
  · intro hzero
    have hdempty : (read b (k : Int)).2.2.src.data = [] := by
      rcases R.errShape rfl with h | h
      · rcases R.errNone h with ⟨hn0, hle⟩ | ⟨_, hde⟩
        · exfalso
          have hkk : (k : Int) ≤ ((read b (k : Int)).1 : Int) := hle
          have hkk2 : k ≤ (read b (k : Int)).1 := by exact_mod_cast hkk
          omega
        · exact hde
      · exact (R.errEof h).2.2
    have hdl := hdrained hdempty
    refine ⟨by omega, R.cpEq, R.inv, R.closedEq.trans hcl, R.disabledEq.trans hsd⟩

theorem inv_cp_advance {C : Nat} {d0 : List Nat} {ee : Option Nat} {b : BufReader}
    (hinv : Inv C d0 ee b) (k : Nat)
    (hk : b.isClosed = false → b.isSeekerDisabled = false →
      b.currentPos + k ≤ getReaderPos b) :
    Inv C d0 ee { b with currentPos := b.currentPos + k } := by
  refine ⟨hinv.size, hinv.cpos, hinv.endE, hinv.allFull, hinv.lastLe, hinv.lastSome,
    ?_, hinv.chunkContent, hinv.eofData, hinv.count, hinv.closedEmpty, hinv.fetched,
    hinv.openNoNil, ?_, hinv.openData⟩
  · intro i hi hni
    have hnb : (i + 1) * C ≤ b.currentPos := hinv.nilBound i hi hni
    show (i + 1) * C ≤ b.currentPos + k
    omega
  · intro hc hd
    exact hk hc hd

theorem take_glue (d0 : List Nat) (cp a m : Nat) (hm : a ≤ m) :
    (d0.drop cp).take a ++ (d0.drop (cp + a)).take (m - a) = (d0.drop cp).take m := by
  have h1 := List.take_add (d0.drop cp) a (m - a)
  rw [show a + (m - a) = m from by omega] at h1
  rw [h1, List.drop_drop]

theorem bufRead_open_spec {C : Nat} {d0 : List Nat} {b : BufReader}
    (hinv : Inv C d0 none b) (hcl : b.isClosed = false) (hsd : b.isSeekerDisabled = false)
    (plen : Nat) :
    (bufRead b plen).1 = (d0.drop b.currentPos).take (min plen (d0.length - b.currentPos))
    ∧ (bufRead b plen).2.2.currentPos = b.currentPos + (bufRead b plen).1.length
    ∧ Inv C d0 none (bufRead b plen).2.2
    ∧ (bufRead b plen).2.2.isClosed = false
    ∧ (bufRead b plen).2.2.isSeekerDisabled = false := by
  have hrple := inv_rp_le_d0 hinv
  have hop := hinv.openPos hcl hsd
  rw [bufRead, if_neg (by rw [hcl]; simp)]
  by_cases hdr : b.currentPos < getReaderPos b
  · set a := min plen (getReaderPos b - b.currentPos) with ha
    have hD : bufReadDrain b plen
        = ((d0.drop b.currentPos).take a, none,
          { b with currentPos := b.currentPos + a }) := by
      rw [bufReadDrain, if_pos hdr, readTo_spec hinv plen,
        if_neg (fun hc => absurd hc.1 (by omega))]
    have hD1 : (bufReadDrain b plen).1 = (d0.drop b.currentPos).take a := by rw [hD]
    have hD2 : (bufReadDrain b plen).2.1 = none := by rw [hD]
    have hD3 : (bufReadDrain b plen).2.2 = { b with currentPos := b.currentPos + a } := by
      rw [hD]
    rw [if_neg (fun hc => hc hD2), hD1, hD3, bufReadCont]
    have hXlen : ((d0.drop b.currentPos).take a).length = a := by
      rw [List.length_take, List.length_drop]
      omega
    have hinv1 : Inv C d0 none { b with currentPos := b.currentPos + a } :=
      inv_cp_advance hinv a (fun _ _ => by omega)
    by_cases hfull : ((d0.drop b.currentPos).take a).length = plen
    · rw [if_pos hfull]
      have haplen : a = plen := by omega
      have hmin : min plen (d0.length - b.currentPos) = a := by omega
      rw [hmin]
      exact ⟨rfl, by rw [hXlen], hinv1, hcl, hsd⟩
    · have halt : a < plen := by omega
      have haeq : a = getReaderPos b - b.currentPos := by omega
      rw [if_neg hfull,
        if_neg (fun hc => absurd (show b.isSeekerDisabled = true from hc) (by rw [hsd]; simp)),
        bufReadFetch, hXlen]
      have hcast : (plen : Int) - (a : Int) = ((plen - a : Nat) : Int) := by
        rw [Nat.cast_sub (by omega)]
      rw [hcast]
      have hcp1 : ({ b with currentPos := b.currentPos + a } : BufReader).currentPos
          = getReaderPos { b with currentPos := b.currentPos + a } := by
        show b.currentPos + a = getReaderPos b
        omega
      obtain ⟨hP, hZ⟩ := fetch_drain_spec hinv1 hcl hsd hcp1 (plen - a) (by omega)
      set b1 : BufReader := { b with currentPos := b.currentPos + a } with hb1
      by_cases hpos : 0 < (read b1 ((plen - a : Nat) : Int)).1
      · rw [if_pos hpos]
        obtain ⟨hu1, hu2, hu3, hu4, hu5⟩ := hP hpos
        have hb1cp : b1.currentPos = b.currentPos + a := rfl
        rw [hb1cp] at hu1 hu2
        set m := min plen (d0.length - b.currentPos) with hmdef
        have hminr : min (plen - a) (d0.length - (b.currentPos + a)) = m - a := by omega
        rw [hminr] at hu1
        refine ⟨?_, ?_, hu3, hu4, hu5⟩
        · show (d0.drop b.currentPos).take a
              ++ (readTo (read b1 ((plen - a : Nat) : Int)).2.2 (plen - a)).1
            = (d0.drop b.currentPos).take m
          rw [hu1, take_glue d0 b.currentPos a m (by omega)]
        · show (readTo (read b1 ((plen - a : Nat) : Int)).2.2 (plen - a)).2.2.currentPos
            = b.currentPos + ((d0.drop b.currentPos).take a
              ++ (readTo (read b1 ((plen - a : Nat) : Int)).2.2 (plen - a)).1).length
          rw [List.length_append, hu2, hXlen]
          omega
      · have hz : (read b1 ((plen - a : Nat) : Int)).1 = 0 := by omega
        rw [if_neg hpos]
        obtain ⟨hz1, hz2, hz3, hz4, hz5⟩ := hZ hz
        have hb1cp : b1.currentPos = b.currentPos + a := rfl
        rw [hb1cp] at hz1 hz2
        have hmin : min plen (d0.length - b.currentPos) = a := by omega
        rw [hmin]
        exact ⟨rfl, by rw [hz2, hXlen], hz3, hz4, hz5⟩
  · have hcpeq : b.currentPos = getReaderPos b := by omega
    have hD : bufReadDrain b plen = ([], none, b) := by
      rw [bufReadDrain, if_neg hdr]
    have hD1 : (bufReadDrain b plen).1 = ([] : List Nat) := by rw [hD]
    have hD2 : (bufReadDrain b plen).2.1 = none := by rw [hD]
    have hD3 : (bufReadDrain b plen).2.2 = b := by rw [hD]
    rw [if_neg (fun hc => hc hD2), hD1, hD3, bufReadCont]
    by_cases hplen : ([] : List Nat).length = plen
    · rw [if_pos hplen]
      have hplen0 : plen = 0 := by simpa using hplen.symm
      rw [hplen0]
      simp only [Nat.zero_min, List.take_zero, Nat.add_zero]
      exact ⟨by simp, by simp, hinv, hcl, hsd⟩
    · rw [if_neg hplen,
        if_neg (fun hc => absurd (show b.isSeekerDisabled = true from hc) (by rw [hsd]; simp)),
        bufReadFetch, List.length_nil, Nat.sub_zero, Nat.cast_zero, Int.sub_zero]
      have hplenpos : 1 ≤ plen := by
        rcases Nat.eq_zero_or_pos plen with h0 | h1
        · exact absurd (by rw [h0]; rfl) hplen
        · exact h1
      obtain ⟨hP, hZ⟩ := fetch_drain_spec hinv hcl hsd hcpeq plen hplenpos
      by_cases hpos : 0 < (read b (plen : Int)).1
      · rw [if_pos hpos]
        obtain ⟨hu1, hu2, hu3, hu4, hu5⟩ := hP hpos
        refine ⟨?_, ?_, hu3, hu4, hu5⟩
        · show ([] : List Nat) ++ (readTo (read b (plen : Int)).2.2 plen).1
            = (d0.drop b.currentPos).take (min plen (d0.length - b.currentPos))
          rw [List.nil_append]
          exact hu1
        · show (readTo (read b (plen : Int)).2.2 plen).2.2.currentPos
            = b.currentPos + (([] : List Nat)
              ++ (readTo (read b (plen : Int)).2.2 plen).1).length
          rw [List.nil_append]
          exact hu2
      · have hz : (read b (plen : Int)).1 = 0 := by omega
        rw [if_neg hpos]
        obtain ⟨hz1, hz2, hz3, hz4, hz5⟩ := hZ hz
        have hmin : min plen (d0.length - b.currentPos) = 0 := by omega
        rw [hmin]
        simp only [List.take_zero]
        exact ⟨by simp, by rw [hz2]; simp, hz3, hz4, hz5⟩

theorem readLoop_cp (n : Int) :
    ∀ (fuel : Nat) (b : BufReader) (bytesRead : Nat) (err : Option GoErr),
      (readLoop n fuel b bytesRead err).2.2.currentPos = b.currentPos := by
  intro fuel
  induction fuel with
  | zero => intro b bytesRead err; rfl
  | succ m ih =>
    intro b bytesRead err
    rw [readLoop]
    by_cases h1 : b.isEofReached = true
    · rw [if_pos h1]
    · rw [if_neg h1]
      by_cases h2 : err = some GoErr.eof
      · rw [if_pos h2]
      · rw [if_neg h2]
        by_cases h3 : err ≠ none
        · rw [if_pos h3]
        · rw [if_neg h3]
          by_cases h4 : 0 ≤ n ∧ n ≤ (bytesRead : Int)
          · rw [if_pos h4]
          · rw [if_neg h4, ih, readStep_cp]

theorem srcRead_data (s : Src) (k : Nat) :
    (srcRead s k).1 = s.data.take k
    ∧ (srcRead s k).2.2.data = s.data.drop k
    ∧ (srcRead s k).2.2.endErr = s.endErr := by
  by_cases h : s.data = []
  · rw [srcRead_of_nil h]
    refine ⟨by rw [h, List.take_nil], by rw [h, List.drop_nil], rfl⟩
  · rw [srcRead_of_ne h]
    exact ⟨rfl, rfl, rfl⟩

theorem getD_drop {α : Type} (l : List α) (k i : Nat) (d : α) :
    (l.drop k).getD i d = l.getD (k + i) d := by
  simp [List.getD_eq_getElem?_getD, List.getElem?_drop]

theorem getD_map_none {α β : Type} (l : List α) (i : Nat) :
    (l.map (fun _ => (none : Option β))).getD i none = none := by
  rw [List.getD_eq_getElem?_getD, List.getElem?_map]
  cases l[i]? <;> simp

theorem countP_map_none {α β : Type} (l : List α) :
    (l.map (fun _ => (none : Option β))).countP (fun c => c.isSome) = 0 := by
  induction l with
  | nil => rfl
  | cons a t ih => rw [List.map_cons, List.countP_cons, ih]; rfl

theorem countP_take_add_drop {α : Type} (p : α → Bool) (l : List α) (k : Nat) :
    (l.take k).countP p + (l.drop k).countP p = l.countP p := by
  rw [← List.countP_append, List.take_append_drop]

theorem getReaderPos_congr {b2 b : BufReader} (hlen : b2.buffer.length = b.buffer.length)
    (hlast : b2.buffer.getLast? = b.buffer.getLast?) (hsz : b2.bufSize = b.bufSize) :
    getReaderPos b2 = getReaderPos b := by
  rw [getReaderPos, getReaderPos, hlast, hlen, hsz]

theorem bufRead_closed {b : BufReader} (hcl : b.isClosed = true) (plen : Nat) :
    bufRead b plen = ([], some GoErr.closed, b) := by
  rw [bufRead, if_pos hcl]

theorem bufSeek_closed {b : BufReader} (hcl : b.isClosed = true) (offset : Int) (whence : Nat) :
    bufSeek b offset whence = ((b.currentPos : Int), some GoErr.closed, b) := by
  rw [bufSeek, if_pos hcl]

theorem bufSeek_disabled {b : BufReader} (hcl : b.isClosed = false)
    (hsd : b.isSeekerDisabled = true) (offset : Int) (whence : Nat) :
    bufSeek b offset whence = ((b.currentPos : Int), some GoErr.seekerDisabled, b) := by
  rw [bufSeek, if_neg (by rw [hcl]; simp), if_pos hsd]

theorem bufClose_closed {b : BufReader} (hcl : b.isClosed = true) :
    bufClose b = (some GoErr.closed, b) := by
  rw [bufClose, if_pos hcl]

theorem bufClose_open {b : BufReader} (hcl : b.isClosed = false) :
    bufClose b = (none, { b with isClosed := true, ctxCanceled := true, srcClosed := true, buffer := [], poolPuts := b.poolPuts + b.buffer.countP (fun x => x.isSome) }) := by
  rw [bufClose, if_neg (by rw [hcl]; simp), cleanUpBuffer_all]

theorem disableSeeker_closed {b : BufReader} (hcl : b.isClosed = true) :
    disableSeeker b = b := by
  rw [disableSeeker, if_pos hcl]

theorem disableSeeker_disabled {b : BufReader} (hcl : b.isClosed = false)
    (hsd : b.isSeekerDisabled = true) : disableSeeker b = b := by
  rw [disableSeeker, if_neg (by rw [hcl]; simp), if_pos hsd]

theorem disableSeeker_open {b : BufReader} (hcl : b.isClosed = false)
    (hsd : b.isSeekerDisabled = false) :
    disableSeeker b = cleanUpBuffer { b with isSeekerDisabled := true } false := by
  rw [disableSeeker, if_neg (by rw [hcl]; simp), if_neg (by rw [hsd]; simp)]

theorem disableSeeker_part {b : BufReader} (hcl : b.isClosed = false)
    (hsd : b.isSeekerDisabled = false) (hlt : b.currentPos / b.bufSize < b.buffer.length) :
    disableSeeker b = { b with isSeekerDisabled := true, buffer := (b.buffer.take (b.currentPos / b.bufSize)).map (fun _ => none) ++ b.buffer.drop (b.currentPos / b.bufSize), poolPuts := b.poolPuts + (b.buffer.take (b.currentPos / b.bufSize)).countP (fun x => x.isSome) } := by
  rw [disableSeeker_open hcl hsd, cleanUpBuffer_part { b with isSeekerDisabled := true } hlt]

theorem disableSeeker_complete {b : BufReader} (hcl : b.isClosed = false)
    (hsd : b.isSeekerDisabled = false) (hge : b.buffer.length ≤ b.currentPos / b.bufSize) :
    disableSeeker b = { b with isSeekerDisabled := true, buffer := [], poolPuts := b.poolPuts + b.buffer.countP (fun x => x.isSome) } := by
  rw [disableSeeker_open hcl hsd, cleanUpBuffer_complete { b with isSeekerDisabled := true } hge]

theorem inv_bufClose {C : Nat} {d0 : List Nat} {ee : Option Nat} {b : BufReader}
    (hinv : Inv C d0 ee b) (hcl : b.isClosed = false) :
    Inv C d0 ee (bufClose b).2 := by
  rw [bufClose_open hcl]
  refine ⟨hinv.size, hinv.cpos, hinv.endE, ?_, ?_, ?_, ?_, ?_, ?_, ?_, ?_, ?_, ?_, ?_, ?_⟩
  · intro i c hi
    have hi2 : i + 1 < (0 : Nat) := hi
    omega
  · intro c h
    exact Option.noConfusion (show (none : Option (Option (List Nat))) = some (some c) from h)
  · intro h
    exact Option.noConfusion (show (none : Option (Option (List Nat))) = some none from h)
  · intro i hi
    have hi2 : i < (0 : Nat) := hi
    omega
  · intro i c h
    rw [List.getD_nil] at h
    exact Option.noConfusion h
  · intro h
    exact hinv.eofData h
  · show b.poolGets = b.poolPuts + b.buffer.countP (fun x => x.isSome)
        + ([] : List (Option (List Nat))).countP (fun c => c.isSome)
    rw [List.countP_nil]
    have h := hinv.count
    omega
  · intro _
    rfl
  · intro _ h
    exact absurd rfl h
  · intro h
    exact absurd (show (true : Bool) = false from h) (by simp)
  · intro h
    exact absurd (show (true : Bool) = false from h) (by simp)
  · intro h
    exact absurd (show (true : Bool) = false from h) (by simp)

theorem inv_disableSeeker {C : Nat} {d0 : List Nat} {ee : Option Nat} {b : BufReader}
    (hinv : Inv C d0 ee b) (hcl : b.isClosed = false) (hsd : b.isSeekerDisabled = false) :
    Inv C d0 ee (disableSeeker b) := by
  by_cases hcase : b.currentPos / b.bufSize < b.buffer.length
  · rw [disableSeeker_part hcl hsd hcase]
    set crp := b.currentPos / b.bufSize with hcrp
    set B := (b.buffer.take crp).map (fun _ => (none : Option (List Nat))) ++ b.buffer.drop crp
      with hB
    have hlm : ((b.buffer.take crp).map (fun _ => (none : Option (List Nat)))).length = crp := by
      rw [List.length_map, List.length_take]
      omega
    have hlen : B.length = b.buffer.length := by
      rw [hB, List.length_append, hlm, List.length_drop]
      omega
    have hgetD : ∀ i, B.getD i none = if i < crp then none else b.buffer.getD i none := by
      intro i
      by_cases hi : i < crp
      · rw [if_pos hi, hB, getD_append_left (by rw [hlm]; omega), getD_map_none]
      · rw [if_neg hi, hB, getD_append_right (by rw [hlm]; omega), hlm, getD_drop]
        congr 1
        omega
    have hbne : b.buffer ≠ [] := by
      intro h
      rw [h] at hcase
      simp at hcase
    have hne : B ≠ [] := by
      intro h
      rw [h] at hlen
      have h0 : b.buffer.length = 0 := by simpa using hlen.symm
      omega
    have hlast : B.getLast? = b.buffer.getLast? := by
      rw [getLast?_eq_getD B hne, getLast?_eq_getD b.buffer hbne, hlen, hgetD,
        if_neg (by omega)]
    refine ⟨hinv.size, hinv.cpos, hinv.endE, ?_, ?_, ?_, ?_, ?_, ?_, ?_, ?_, ?_, ?_, ?_, ?_⟩
    · intro i c hi hD
      have hi2 : i + 1 < B.length := hi
      have hD2 : B.getD i none = some c := hD
      rw [hgetD i] at hD2
      by_cases hic : i < crp
      · rw [if_pos hic] at hD2
        exact Option.noConfusion hD2
      · rw [if_neg hic] at hD2
        rw [hlen] at hi2
        exact hinv.allFull i c hi2 hD2
    · intro c h
      have h2 : B.getLast? = some (some c) := h
      rw [hlast] at h2
      exact hinv.lastLe c h2
    · intro h
      have h2 : B.getLast? = some none := h
      rw [hlast] at h2
      exact hinv.lastSome h2
    · intro i hi hD
      have hi2 : i < B.length := hi
      have hD2 : B.getD i none = none := hD
      rw [hgetD i] at hD2
      by_cases hic : i < crp
      · show (i + 1) * C ≤ b.currentPos
        have hmul : (i + 1) * C ≤ crp * C := Nat.mul_le_mul_right C (by omega)
        have hdiv : crp * C ≤ b.currentPos := by
          rw [hcrp, ← hinv.size]
          exact Nat.div_mul_le_self b.currentPos b.bufSize
        omega
      · rw [if_neg hic] at hD2
        rw [hlen] at hi2
        exact absurd hD2 (hinv.openNoNil hcl hsd i hi2)
    · intro i c hD
      have hD2 : B.getD i none = some c := hD
      rw [hgetD i] at hD2
      by_cases hic : i < crp
      · rw [if_pos hic] at hD2
        exact Option.noConfusion hD2
      · rw [if_neg hic] at hD2
        exact hinv.chunkContent i c hD2
    · intro h
      exact hinv.eofData h
    · show b.poolGets = b.poolPuts + (b.buffer.take crp).countP (fun x => x.isSome)
          + B.countP (fun c => c.isSome)
      have hcB : B.countP (fun c => c.isSome)
          = (b.buffer.drop crp).countP (fun c => c.isSome) := by
        rw [hB, List.countP_append, countP_map_none]
        omega
      have h1 := countP_take_add_drop (fun c : Option (List Nat) => c.isSome) b.buffer crp
      have h2 := hinv.count
      rw [hcB]
      omega
    · intro h
      exact absurd (show b.isClosed = true from h) (by rw [hcl]; simp)
    · intro h1 h2
      have hrpB : getReaderPos { b with isSeekerDisabled := true, buffer := B, poolPuts := b.poolPuts + (b.buffer.take crp).countP (fun x => x.isSome) } = getReaderPos b :=
        getReaderPos_congr hlen hlast rfl
      rw [hrpB]
      exact hinv.fetched hcl hbne
    · intro _ h2
      exact absurd (show (true : Bool) = false from h2) (by simp)
    · intro _ h2
      exact absurd (show (true : Bool) = false from h2) (by simp)
    · intro _ h2
      exact absurd (show (true : Bool) = false from h2) (by simp)
  · rw [disableSeeker_complete hcl hsd (by omega)]
    refine ⟨hinv.size, hinv.cpos, hinv.endE, ?_, ?_, ?_, ?_, ?_, ?_, ?_, ?_, ?_, ?_, ?_, ?_⟩
    · intro i c hi
      have hi2 : i + 1 < (0 : Nat) := hi
      omega
    · intro c h
      exact Option.noConfusion (show (none : Option (Option (List Nat))) = some (some c) from h)
    · intro h
      exact Option.noConfusion (show (none : Option (Option (List Nat))) = some none from h)
    · intro i hi
      have hi2 : i < (0 : Nat) := hi
      omega
    · intro i c h
      rw [List.getD_nil] at h
      exact Option.noConfusion h
    · intro h
      exact hinv.eofData h
    · show b.poolGets = b.poolPuts + b.buffer.countP (fun x => x.isSome)
          + ([] : List (Option (List Nat))).countP (fun c => c.isSome)
      rw [List.countP_nil]
      have h := hinv.count
      omega
    · intro _
      rfl
    · intro _ h
      exact absurd rfl h
    · intro _ h2
      exact absurd (show (true : Bool) = false from h2) (by simp)
    · intro _ h2
      exact absurd (show (true : Bool) = false from h2) (by simp)
    · intro _ h2
      exact absurd (show (true : Bool) = false from h2) (by simp)

theorem inv_direct {C : Nat} {d0 : List Nat} {ee : Option Nat} {b1 : BufReader}
    (hinv : Inv C d0 ee b1) (_hcl : b1.isClosed = false) (hsd : b1.isSeekerDisabled = true)
    (k : Nat) :
    Inv C d0 ee (cleanUpBuffer { b1 with src := (srcRead b1.src k).2.2 } true) := by
  rw [cleanUpBuffer_all]
  obtain ⟨hs1, hs2, hs3⟩ := srcRead_data b1.src k
  refine ⟨hinv.size, hinv.cpos, ?_, ?_, ?_, ?_, ?_, ?_, ?_, ?_, ?_, ?_, ?_, ?_, ?_⟩
  · show (srcRead b1.src k).2.2.endErr = ee
    rw [hs3]
    exact hinv.endE
  · intro i c hi
    have hi2 : i + 1 < (0 : Nat) := hi
    omega
  · intro c h
    exact Option.noConfusion (show (none : Option (Option (List Nat))) = some (some c) from h)
  · intro h
    exact Option.noConfusion (show (none : Option (Option (List Nat))) = some none from h)
  · intro i hi
    have hi2 : i < (0 : Nat) := hi
    omega
  · intro i c h
    rw [List.getD_nil] at h
    exact Option.noConfusion h
  · intro h
    have hD := hinv.eofData h
    show (srcRead b1.src k).2.2.data = []
    rw [hs2, hD, List.drop_nil]
  · show b1.poolGets = b1.poolPuts + b1.buffer.countP (fun x => x.isSome)
        + ([] : List (Option (List Nat))).countP (fun c => c.isSome)
    rw [List.countP_nil]
    have h := hinv.count
    omega
  · intro _
    rfl
  · intro _ h
    exact absurd rfl h
  · intro _ h2
    exact absurd (hsd.symm.trans (show b1.isSeekerDisabled = false from h2)) (by simp)
  · intro _ h2
    exact absurd (hsd.symm.trans (show b1.isSeekerDisabled = false from h2)) (by simp)
  · intro _ h2
    exact absurd (hsd.symm.trans (show b1.isSeekerDisabled = false from h2)) (by simp)

theorem inv_bufReadCont_disabled {C : Nat} {d0 : List Nat} {ee : Option Nat} {b1 : BufReader}
    (hinv : Inv C d0 ee b1) (hcl : b1.isClosed = false) (hsd : b1.isSeekerDisabled = true)
    (out : List Nat) (plen : Nat) :
    Inv C d0 ee (bufReadCont out b1 plen).2.2
    ∧ (bufReadCont out b1 plen).2.2.isClosed = false
    ∧ (bufReadCont out b1 plen).2.2.isSeekerDisabled = true := by
  rw [bufReadCont]
  by_cases hlen : out.length = plen
  · rw [if_pos hlen]
    exact ⟨hinv, hcl, hsd⟩
  · rw [if_neg hlen, if_pos hsd, bufReadDirect]
    refine ⟨inv_direct hinv hcl hsd (plen - out.length), ?_, ?_⟩
    · show b1.isClosed = false
      exact hcl
    · show b1.isSeekerDisabled = true
      exact hsd

theorem inv_bufRead_disabled {C : Nat} {d0 : List Nat} {ee : Option Nat} {b : BufReader}
    (hinv : Inv C d0 ee b) (hcl : b.isClosed = false) (hsd : b.isSeekerDisabled = true)
    (plen : Nat) :
    Inv C d0 ee (bufRead b plen).2.2
    ∧ (bufRead b plen).2.2.isClosed = false
    ∧ (bufRead b plen).2.2.isSeekerDisabled = true := by
  rw [bufRead, if_neg (by rw [hcl]; simp)]
  by_cases hdr : b.currentPos < getReaderPos b
  · have hD : bufReadDrain b plen = readTo b plen := by rw [bufReadDrain, if_pos hdr]
    have herr : (bufReadDrain b plen).2.1 = none := by
      rw [hD, readTo_err hinv plen, if_neg (fun hc => absurd hc.1 (by omega))]
    rw [if_neg (fun hc => hc herr), hD]
    exact inv_bufReadCont_disabled (inv_readTo hinv plen)
      ((readTo_closed hinv plen).trans hcl) ((readTo_disabled hinv plen).trans hsd)
      (readTo b plen).1 plen
  · have hD : bufReadDrain b plen = ([], none, b) := by rw [bufReadDrain, if_neg hdr]
    have herr : (bufReadDrain b plen).2.1 = none := by rw [hD]
    rw [if_neg (fun hc => hc herr), hD]
    exact inv_bufReadCont_disabled hinv hcl hsd [] plen

theorem inv_set_cp_open {C : Nat} {d0 : List Nat} {ee : Option Nat} {b : BufReader}
    (hinv : Inv C d0 ee b) (hcl : b.isClosed = false) (hsd : b.isSeekerDisabled = false)
    (v : Nat) (hv : v ≤ getReaderPos b) :
    Inv C d0 ee { b with currentPos := v } := by
  refine ⟨hinv.size, hinv.cpos, hinv.endE, hinv.allFull, hinv.lastLe, hinv.lastSome, ?_,
    hinv.chunkContent, hinv.eofData, hinv.count, hinv.closedEmpty, hinv.fetched,
    hinv.openNoNil, ?_, hinv.openData⟩
  · intro i hi hni
    exact absurd hni (hinv.openNoNil hcl hsd i hi)
  · intro _ _
    exact hv

theorem inv_bufSeekResolve {C : Nat} {d0 : List Nat} {b : BufReader}
    (hinv : Inv C d0 none b) (hcl : b.isClosed = false) (hsd : b.isSeekerDisabled = false)
    (abs : Int) :
    Inv C d0 none (bufSeekResolve b abs).2.2
    ∧ (bufSeekResolve b abs).2.2.isClosed = false
    ∧ (bufSeekResolve b abs).2.2.isSeekerDisabled = false := by
  rw [bufSeekResolve]
  by_cases hneg : abs < 0
  · rw [if_pos hneg]
    exact ⟨hinv, hcl, hsd⟩
  · rw [if_neg hneg]
    by_cases hfar : 0 < abs - (getReaderPos b : Int)
    · rw [if_pos hfar, bufSeekFetch]
      have R := read_spec hinv hcl hsd (abs - (getReaderPos b : Int))
      by_cases hb1 : (read b (abs - (getReaderPos b : Int))).2.1 ≠ none
          ∧ (read b (abs - (getReaderPos b : Int))).2.1 ≠ some GoErr.eof
      · rw [if_pos hb1]
        exact ⟨R.inv, R.closedEq.trans hcl, R.disabledEq.trans hsd⟩
      · rw [if_neg hb1]
        by_cases hshort : ((read b (abs - (getReaderPos b : Int))).1 : Int)
            < abs - (getReaderPos b : Int)
        · rw [if_pos hshort]
          exact ⟨R.inv, R.closedEq.trans hcl, R.disabledEq.trans hsd⟩
        · rw [if_neg hshort]
          have hrp2 : getReaderPos (read b (abs - (getReaderPos b : Int))).2.2
              = getReaderPos b + (read b (abs - (getReaderPos b : Int))).1 := by
            have h1 := R.rpEq
            have h2 := R.mono
            omega
          refine ⟨inv_set_cp_open R.inv (R.closedEq.trans hcl) (R.disabledEq.trans hsd)
            abs.toNat ?_, R.closedEq.trans hcl, R.disabledEq.trans hsd⟩
          rw [hrp2]
          omega
    · rw [if_neg hfar]
      refine ⟨inv_set_cp_open hinv hcl hsd abs.toNat ?_, hcl, hsd⟩
      omega

theorem inv_bufSeekEnd {C : Nat} {d0 : List Nat} {b : BufReader}
    (hinv : Inv C d0 none b) (hcl : b.isClosed = false) (hsd : b.isSeekerDisabled = false)
    (offset : Int) :
    Inv C d0 none (bufSeekEnd b offset).2.2
    ∧ (bufSeekEnd b offset).2.2.isClosed = false
    ∧ (bufSeekEnd b offset).2.2.isSeekerDisabled = false := by
  rw [bufSeekEnd]
  by_cases hpos : 0 < offset
  · rw [if_pos hpos]
    exact ⟨hinv, hcl, hsd⟩
  · rw [if_neg hpos]
    have R := read_spec hinv hcl hsd (-1)
    by_cases herr : (read b (-1)).2.1 ≠ none ∧ (read b (-1)).2.1 ≠ some GoErr.eof
    · rw [if_pos herr]
      exact ⟨R.inv, R.closedEq.trans hcl, R.disabledEq.trans hsd⟩
    · rw [if_neg herr]
      exact inv_bufSeekResolve R.inv (R.closedEq.trans hcl) (R.disabledEq.trans hsd) _

theorem inv_bufSeek {C : Nat} {d0 : List Nat} {b : BufReader}
    (hinv : Inv C d0 none b) (offset : Int) (whence : Nat) :
    Inv C d0 none (bufSeek b offset whence).2.2 := by
  by_cases hcl : b.isClosed = true
  · rw [bufSeek_closed hcl]
    exact hinv
  · have hcl2 : b.isClosed = false := by revert hcl; cases b.isClosed <;> simp
    by_cases hsd : b.isSeekerDisabled = true
    · rw [bufSeek_disabled hcl2 hsd]
      exact hinv
    · have hsd2 : b.isSeekerDisabled = false := by
        revert hsd; cases b.isSeekerDisabled <;> simp
      rw [bufSeek, if_neg (by rw [hcl2]; simp), if_neg (by rw [hsd2]; simp)]
      by_cases h0 : whence = 0
      · rw [if_pos h0]
        exact (inv_bufSeekResolve hinv hcl2 hsd2 offset).1
      · rw [if_neg h0]
        by_cases h1 : whence = 1
        · rw [if_pos h1]
          exact (inv_bufSeekResolve hinv hcl2 hsd2 _).1
        · rw [if_neg h1]
          by_cases h2 : whence = 2
          · rw [if_pos h2]
            exact (inv_bufSeekEnd hinv hcl2 hsd2 offset).1
          · rw [if_neg h2]
            exact hinv

theorem inv_bufRead {C : Nat} {d0 : List Nat} {b : BufReader}
    (hinv : Inv C d0 none b) (plen : Nat) :
    Inv C d0 none (bufRead b plen).2.2 := by
  by_cases hcl : b.isClosed = true
  · rw [bufRead_closed hcl]
    exact hinv
  · have hcl2 : b.isClosed = false := by revert hcl; cases b.isClosed <;> simp
    by_cases hsd : b.isSeekerDisabled = true
    · exact (inv_bufRead_disabled hinv hcl2 hsd plen).1
    · have hsd2 : b.isSeekerDisabled = false := by
        revert hsd; cases b.isSeekerDisabled <;> simp
      exact (bufRead_open_spec hinv hcl2 hsd2 plen).2.2.1

theorem inv_disableSeeker_all {C : Nat} {d0 : List Nat} {b : BufReader}
    (hinv : Inv C d0 none b) : Inv C d0 none (disableSeeker b) := by
  by_cases hcl : b.isClosed = true
  · rw [disableSeeker_closed hcl]
    exact hinv
  · have hcl2 : b.isClosed = false := by revert hcl; cases b.isClosed <;> simp
    by_cases hsd : b.isSeekerDisabled = true
    · rw [disableSeeker_disabled hcl2 hsd]
      exact hinv
    · have hsd2 : b.isSeekerDisabled = false := by
        revert hsd; cases b.isSeekerDisabled <;> simp
      exact inv_disableSeeker hinv hcl2 hsd2

theorem inv_bufClose_all {C : Nat} {d0 : List Nat} {b : BufReader}
    (hinv : Inv C d0 none b) : Inv C d0 none (bufClose b).2 := by
  by_cases hcl : b.isClosed = true
  · rw [bufClose_closed hcl]
    exact hinv
  · have hcl2 : b.isClosed = false := by revert hcl; cases b.isClosed <;> simp
    exact inv_bufClose hinv hcl2

theorem inv_step {C : Nat} {d0 : List Nat} {b b2 : BufReader}
    (hinv : Inv C d0 none b) (h : Step b b2) : Inv C d0 none b2 := by
  cases h with
  | doRead plen => exact inv_bufRead hinv plen
  | doSeek offset whence => exact inv_bufSeek hinv offset whence
  | doDisable => exact inv_disableSeeker_all hinv
  | doClose => exact inv_bufClose_all hinv

theorem inv_init {C : Nat} {s : Src} (hC : 1 ≤ C) (hee : s.endErr = none) :
    Inv C s.data none (newBufReader C s) := by
  refine ⟨rfl, hC, hee, ?_, ?_, ?_, ?_, ?_, ?_, ?_, ?_, ?_, ?_, ?_, ?_⟩
  · intro i c hi
    have hi2 : i + 1 < (0 : Nat) := hi
    omega
  · intro c h
    exact Option.noConfusion (show (none : Option (Option (List Nat))) = some (some c) from h)
  · intro h
    exact Option.noConfusion (show (none : Option (Option (List Nat))) = some none from h)
  · intro i hi
    have hi2 : i < (0 : Nat) := hi
    omega
  · intro i c h
    have h2 : ([] : List (Option (List Nat))).getD i none = some c := h
    rw [List.getD_nil] at h2
    exact Option.noConfusion h2
  · intro h
    exact absurd (show (false : Bool) = true from h) (by simp)
  · show (0 : Nat) = 0 + ([] : List (Option (List Nat))).countP (fun c => c.isSome)
    rw [List.countP_nil]
  · intro _
    rfl
  · intro _ h
    exact absurd rfl h
  · intro _ _ i hi
    exact absurd (show i < (0 : Nat) from hi) (by omega)
  · intro _ _
    exact Nat.zero_le _
  · intro _ _
    show s.data = s.data.drop (getReaderPos (newBufReader C s))
    rw [getReaderPos_of_nil rfl, List.drop_zero]

theorem inv_reachable {C : Nat} {s : Src} {b : BufReader} (hC : 1 ≤ C)
    (hee : s.endErr = none) (hr : Reachable C s b) : Inv C s.data none b := by
  induction hr with
  | init => exact inv_init hC hee
  | next hprev hstep ih => exact inv_step ih hstep

theorem take_past_length {α : Type} (l : List α) {k m : Nat} (hk : l.length ≤ k)
    (hm : l.length ≤ m) : l.take k = l.take m := by
  rw [List.take_of_length_le hk, List.take_of_length_le hm]

theorem drained_rp {C : Nat} {d0 : List Nat} {b2 : BufReader} (hinv : Inv C d0 none b2)
    (hcl : b2.isClosed = false) (hsd : b2.isSeekerDisabled = false)
    (hde : b2.src.data = []) : getReaderPos b2 = d0.length := by
  have hod := hinv.openData hcl hsd
  rw [hde] at hod
  have hrple := inv_rp_le_d0 hinv
  have hge : d0.length ≤ getReaderPos b2 := by
    by_contra hgt
    push_neg at hgt
    have hne : d0.drop (getReaderPos b2) ≠ [] := by
      intro hh
      have hld := List.length_drop (getReaderPos b2) d0
      rw [hh] at hld
      simp at hld
      omega
    exact hne hod.symm
  omega

theorem bufSeekResolve_fail {b : BufReader} (abs : Int)
    (herr : (bufSeekResolve b abs).2.1 ≠ none) :
    (bufSeekResolve b abs).1 = (b.currentPos : Int)
    ∧ (bufSeekResolve b abs).2.2.currentPos = b.currentPos := by
  rw [bufSeekResolve] at herr ⊢
  by_cases hneg : abs < 0
  · rw [if_pos hneg] at herr ⊢
    exact ⟨rfl, rfl⟩
  · rw [if_neg hneg] at herr ⊢
    by_cases hfar : 0 < abs - (getReaderPos b : Int)
    · rw [if_pos hfar] at herr ⊢
      rw [bufSeekFetch] at herr ⊢
      by_cases hb1 : (read b (abs - (getReaderPos b : Int))).2.1 ≠ none
          ∧ (read b (abs - (getReaderPos b : Int))).2.1 ≠ some GoErr.eof
      · rw [if_pos hb1] at herr ⊢
        constructor
        · show ((read b (abs - (getReaderPos b : Int))).2.2.currentPos : Int)
            = (b.currentPos : Int)
          rw [read, readLoop_cp]
        · show (read b (abs - (getReaderPos b : Int))).2.2.currentPos = b.currentPos
          rw [read, readLoop_cp]
      · rw [if_neg hb1] at herr ⊢
        by_cases hshort : ((read b (abs - (getReaderPos b : Int))).1 : Int)
            < abs - (getReaderPos b : Int)
        · rw [if_pos hshort] at herr ⊢
          constructor
          · show ((read b (abs - (getReaderPos b : Int))).2.2.currentPos : Int)
              = (b.currentPos : Int)
            rw [read, readLoop_cp]
          · show (read b (abs - (getReaderPos b : Int))).2.2.currentPos = b.currentPos
            rw [read, readLoop_cp]
        · rw [if_neg hshort] at herr
          exact absurd rfl herr
    · rw [if_neg hfar] at herr
      exact absurd rfl herr

theorem bufSeekEnd_fail {b : BufReader} (offset : Int)
    (herr : (bufSeekEnd b offset).2.1 ≠ none) :
    (bufSeekEnd b offset).1 = (b.currentPos : Int)
    ∧ (bufSeekEnd b offset).2.2.currentPos = b.currentPos := by
  rw [bufSeekEnd] at herr ⊢
  by_cases hpos : 0 < offset
  · rw [if_pos hpos] at herr ⊢
    exact ⟨rfl, rfl⟩
  · rw [if_neg hpos] at herr ⊢
    by_cases he : (read b (-1)).2.1 ≠ none ∧ (read b (-1)).2.1 ≠ some GoErr.eof
    · rw [if_pos he] at herr ⊢
      constructor
      · show ((read b (-1)).2.2.currentPos : Int) = (b.currentPos : Int)
        rw [read, readLoop_cp]
      · show (read b (-1)).2.2.currentPos = b.currentPos
        rw [read, readLoop_cp]
    · rw [if_neg he] at herr ⊢
      have h := bufSeekResolve_fail ((getReaderPos (read b (-1)).2.2 : Int) + offset) herr
      have hcp : (read b (-1)).2.2.currentPos = b.currentPos := by rw [read, readLoop_cp]
      rw [hcp] at h
      exact h

theorem bufSeek_fail (b : BufReader) (offset : Int) (whence : Nat)
    (herr : (bufSeek b offset whence).2.1 ≠ none) :
    (bufSeek b offset whence).1 = (b.currentPos : Int)
    ∧ (bufSeek b offset whence).2.2.currentPos = b.currentPos := by
  rw [bufSeek] at herr ⊢
  by_cases hcl : b.isClosed = true
  · rw [if_pos hcl] at herr ⊢
    exact ⟨rfl, rfl⟩
  · rw [if_neg hcl] at herr ⊢
    by_cases hsd : b.isSeekerDisabled = true
    · rw [if_pos hsd] at herr ⊢
      exact ⟨rfl, rfl⟩
    · rw [if_neg hsd] at herr ⊢
      by_cases h0 : whence = 0
      · rw [if_pos h0] at herr ⊢
        exact bufSeekResolve_fail offset herr
      · rw [if_neg h0] at herr ⊢
        by_cases h1 : whence = 1
        · rw [if_pos h1] at herr ⊢
          exact bufSeekResolve_fail _ herr
        · rw [if_neg h1] at herr ⊢
          by_cases h2 : whence = 2
          · rw [if_pos h2] at herr ⊢
            exact bufSeekEnd_fail offset herr
          · rw [if_neg h2] at herr ⊢
            exact ⟨rfl, rfl⟩

theorem bufRSSeek_fail (a : BufRS) (offset : Int) (whence : Nat)
    (herr : (bufRSSeek a offset whence).2.1 ≠ none) :
    (bufRSSeek a offset whence).1 = a.currentPos
    ∧ (bufRSSeek a offset whence).2.2.currentPos = a.currentPos := by
  rw [bufRSSeek] at herr ⊢
  by_cases hcl : a.isClosed = true
  · rw [if_pos hcl] at herr ⊢
    exact ⟨rfl, rfl⟩
  · rw [if_neg hcl] at herr ⊢
    by_cases hsd : a.isSeekerDisabled = true
    · rw [if_pos hsd] at herr ⊢
      exact ⟨rfl, rfl⟩
    · rw [if_neg hsd] at herr ⊢
      cases ht : (rsSeek a.rs offset whence).2.1 with
      | some e => exact ⟨rfl, rfl⟩
      | none =>
        rw [ht] at herr
        exact absurd rfl herr

theorem bufRead_eof_char {C : Nat} {d0 : List Nat} {b : BufReader}
    (hinv : Inv C d0 none b) (hcl : b.isClosed = false) (hsd : b.isSeekerDisabled = false)
    (plen : Nat) :
    ((bufRead b plen).2.1 = none ∨ (bufRead b plen).2.1 = some GoErr.eof)
    ∧ ((bufRead b plen).2.1 = some GoErr.eof →
        (bufRead b plen).1.length < plen
        ∧ (bufRead b plen).2.2.isEofReached = true
        ∧ (bufRead b plen).2.2.src.data = []
        ∧ getReaderPos b = d0.length) := by
  have hrple := inv_rp_le_d0 hinv
  have hop := hinv.openPos hcl hsd
  rw [bufRead, if_neg (by rw [hcl]; simp)]
  by_cases hdr : b.currentPos < getReaderPos b
  · set a := min plen (getReaderPos b - b.currentPos) with ha
    have hD : bufReadDrain b plen
        = ((d0.drop b.currentPos).take a, none,
          { b with currentPos := b.currentPos + a }) := by
      rw [bufReadDrain, if_pos hdr, readTo_spec hinv plen,
        if_neg (fun hc => absurd hc.1 (by omega))]
    have hD1 : (bufReadDrain b plen).1 = (d0.drop b.currentPos).take a := by rw [hD]
    have hD2 : (bufReadDrain b plen).2.1 = none := by rw [hD]
    have hD3 : (bufReadDrain b plen).2.2 = { b with currentPos := b.currentPos + a } := by
      rw [hD]
    rw [if_neg (fun hc => hc hD2), hD1, hD3, bufReadCont]
    have hXlen : ((d0.drop b.currentPos).take a).length = a := by
      rw [List.length_take, List.length_drop]
      omega
    have hinv1 : Inv C d0 none { b with currentPos := b.currentPos + a } :=
      inv_cp_advance hinv a (fun _ _ => by omega)
    by_cases hfull : ((d0.drop b.currentPos).take a).length = plen
    · rw [if_pos hfull]
      refine ⟨Or.inl rfl, fun h => ?_⟩
      exact Option.noConfusion (show (none : Option GoErr) = some GoErr.eof from h)
    · have halt : a < plen := by omega
      have haeq : a = getReaderPos b - b.currentPos := by omega
      rw [if_neg hfull,
        if_neg (fun hc => absurd (show b.isSeekerDisabled = true from hc) (by rw [hsd]; simp)),
        bufReadFetch, hXlen]
      have hcast : (plen : Int) - (a : Int) = ((plen - a : Nat) : Int) := by
        rw [Nat.cast_sub (by omega)]
      rw [hcast]
      have hcp1 : ({ b with currentPos := b.currentPos + a } : BufReader).currentPos
          = getReaderPos { b with currentPos := b.currentPos + a } := by
        show b.currentPos + a = getReaderPos b
        omega
      obtain ⟨hP, hZ⟩ := fetch_drain_spec hinv1 hcl hsd hcp1 (plen - a) (by omega)
      set b1 : BufReader := { b with currentPos := b.currentPos + a } with hb1
      have R := read_spec hinv1 hcl hsd ((plen - a : Nat) : Int)
      by_cases hpos : 0 < (read b1 ((plen - a : Nat) : Int)).1
      · rw [if_pos hpos]
        have hrp2 : getReaderPos (read b1 ((plen - a : Nat) : Int)).2.2
            = getReaderPos b1 + (read b1 ((plen - a : Nat) : Int)).1 := by
          have h1 := R.rpEq
          have h2 := R.mono
          omega
        have hrpb1 : getReaderPos b1 = getReaderPos b := rfl
        have herr2 : (readTo (read b1 ((plen - a : Nat) : Int)).2.2 (plen - a)).2.1
            = none := by
          rw [readTo_err R.inv]
          apply if_neg
          intro hc
          have h1 := hc.1
          rw [hrp2, R.cpEq] at h1
          have h2 : b1.currentPos = b.currentPos + a := rfl
          rw [hrpb1] at h1
          omega
        refine ⟨Or.inl herr2, fun h => ?_⟩
        exact absurd (herr2.symm.trans h) (by simp)
      · rw [if_neg hpos]
        have hz : (read b1 ((plen - a : Nat) : Int)).1 = 0 := by omega
        obtain ⟨hz1, hz2, hz3, hz4, hz5⟩ := hZ hz
        rcases R.errShape rfl with herr | herr
        · refine ⟨Or.inl herr, fun h => ?_⟩
          exact absurd (herr.symm.trans h) (by simp)
        · refine ⟨Or.inr herr, fun _ => ?_⟩
          have E := R.errEof herr
          refine ⟨by rw [hXlen]; omega, E.2.1, E.2.2, ?_⟩
          have hb1cp : b1.currentPos = b.currentPos + a := rfl
          omega
  · have hcpeq : b.currentPos = getReaderPos b := by omega
    have hD : bufReadDrain b plen = ([], none, b) := by
      rw [bufReadDrain, if_neg hdr]
    have hD1 : (bufReadDrain b plen).1 = ([] : List Nat) := by rw [hD]
    have hD2 : (bufReadDrain b plen).2.1 = none := by rw [hD]
    have hD3 : (bufReadDrain b plen).2.2 = b := by rw [hD]
    rw [if_neg (fun hc => hc hD2), hD1, hD3, bufReadCont]
    by_cases hplen : ([] : List Nat).length = plen
    · rw [if_pos hplen]
      refine ⟨Or.inl rfl, fun h => ?_⟩
      exact Option.noConfusion (show (none : Option GoErr) = some GoErr.eof from h)
    · rw [if_neg hplen,
        if_neg (fun hc => absurd (show b.isSeekerDisabled = true from hc) (by rw [hsd]; simp)),
        bufReadFetch, List.length_nil, Nat.sub_zero, Nat.cast_zero, Int.sub_zero]
      have hplenpos : 1 ≤ plen := by
        rcases Nat.eq_zero_or_pos plen with h0 | h1
        · exact absurd (by rw [h0]; rfl) hplen
        · exact h1
      obtain ⟨hP, hZ⟩ := fetch_drain_spec hinv hcl hsd hcpeq plen hplenpos
      have R := read_spec hinv hcl hsd (plen : Int)
      by_cases hpos : 0 < (read b (plen : Int)).1
      · rw [if_pos hpos]
        have hrp2 : getReaderPos (read b (plen : Int)).2.2
            = getReaderPos b + (read b (plen : Int)).1 := by
          have h1 := R.rpEq
          have h2 := R.mono
          omega
        have herr2 : (readTo (read b (plen : Int)).2.2 plen).2.1 = none := by
          rw [readTo_err R.inv]
          apply if_neg
          intro hc
          have h1 := hc.1
          rw [hrp2, R.cpEq] at h1
          omega
        refine ⟨Or.inl herr2, fun h => ?_⟩
        exact absurd (herr2.symm.trans h) (by simp)
      · rw [if_neg hpos]
        have hz : (read b (plen : Int)).1 = 0 := by omega
        obtain ⟨hz1, hz2, hz3, hz4, hz5⟩ := hZ hz
        rcases R.errShape rfl with herr | herr
        · refine ⟨Or.inl herr, fun h => ?_⟩
          exact absurd (herr.symm.trans h) (by simp)
        · refine ⟨Or.inr herr, fun _ => ?_⟩
          have E := R.errEof herr
          refine ⟨by rw [List.length_nil]; omega, E.2.1, E.2.2, by omega⟩

theorem bufRead_disabled_spec {C : Nat} {d0 : List Nat} {b : BufReader}
    (hinv : Inv C d0 none b) (hcl : b.isClosed = false) (hsd : b.isSeekerDisabled = true)
    (hdata : b.src.data = d0.drop (max b.currentPos (getReaderPos b)))
    (hcpL : b.currentPos ≤ d0.length) (plen : Nat) :
    (bufRead b plen).1
      = (d0.drop b.currentPos).take (min plen (d0.length - b.currentPos)) := by
  have hrple := inv_rp_le_d0 hinv
  rw [bufRead, if_neg (by rw [hcl]; simp)]
  by_cases hdr : b.currentPos < getReaderPos b
  · set a := min plen (getReaderPos b - b.currentPos) with ha
    have hD : bufReadDrain b plen
        = ((d0.drop b.currentPos).take a, none,
          { b with currentPos := b.currentPos + a }) := by
      rw [bufReadDrain, if_pos hdr, readTo_spec hinv plen,
        if_neg (fun hc => absurd hc.1 (by omega))]
    have hD1 : (bufReadDrain b plen).1 = (d0.drop b.currentPos).take a := by rw [hD]
    have hD2 : (bufReadDrain b plen).2.1 = none := by rw [hD]
    have hD3 : (bufReadDrain b plen).2.2 = { b with currentPos := b.currentPos + a } := by
      rw [hD]
    rw [if_neg (fun hc => hc hD2), hD1, hD3, bufReadCont]
    have hXlen : ((d0.drop b.currentPos).take a).length = a := by
      rw [List.length_take, List.length_drop]
      omega
    by_cases hfull : ((d0.drop b.currentPos).take a).length = plen
    · rw [if_pos hfull]
      have haplen : a = plen := by omega
      have hmin : min plen (d0.length - b.currentPos) = a := by omega
      rw [hmin]
    · have halt : a < plen := by omega
      have haeq : a = getReaderPos b - b.currentPos := by omega
      rw [if_neg hfull,
        if_pos (show ({ b with currentPos := b.currentPos + a } : BufReader).isSeekerDisabled
          = true from hsd),
        bufReadDirect, hXlen]
      have hmax : max b.currentPos (getReaderPos b) = getReaderPos b := by omega
      rw [hmax] at hdata
      obtain ⟨hs1, hs2, hs3⟩ := srcRead_data b.src (plen - a)
      have hsrcproj : ({ b with currentPos := b.currentPos + a } : BufReader).src = b.src := rfl
      rw [hsrcproj, hs1, hdata]
      have hcpa : b.currentPos + a = getReaderPos b := by omega
      rw [← hcpa]
      by_cases hcase2 : plen ≤ d0.length - b.currentPos
      · rw [show min plen (d0.length - b.currentPos) = plen from by omega]
        have hglue := take_glue d0 b.currentPos a plen (by omega)
        rw [show plen - a = plen - a from rfl] at hglue
        exact hglue
      · rw [show min plen (d0.length - b.currentPos) = d0.length - b.currentPos from by omega]
        have h1 : (d0.drop (b.currentPos + a)).take (plen - a)
            = (d0.drop (b.currentPos + a)).take (d0.length - b.currentPos - a) :=
          take_past_length _ (by rw [List.length_drop]; omega) (by rw [List.length_drop]; omega)
        rw [h1]
        exact take_glue d0 b.currentPos a (d0.length - b.currentPos) (by omega)
  · have hD : bufReadDrain b plen = ([], none, b) := by
      rw [bufReadDrain, if_neg hdr]
    have hD1 : (bufReadDrain b plen).1 = ([] : List Nat) := by rw [hD]
    have hD2 : (bufReadDrain b plen).2.1 = none := by rw [hD]
    have hD3 : (bufReadDrain b plen).2.2 = b := by rw [hD]
    rw [if_neg (fun hc => hc hD2), hD1, hD3, bufReadCont]
    by_cases hplen : ([] : List Nat).length = plen
    · rw [if_pos hplen]
      have hplen0 : plen = 0 := by simpa using hplen.symm
      rw [hplen0]
      simp
    · rw [if_neg hplen, if_pos hsd, bufReadDirect, List.length_nil, Nat.sub_zero]
      have hmax : max b.currentPos (getReaderPos b) = b.currentPos := by omega
      rw [hmax] at hdata
      obtain ⟨hs1, hs2, hs3⟩ := srcRead_data b.src plen
      rw [hs1, hdata, List.nil_append]
      by_cases hc2 : plen ≤ d0.length - b.currentPos
      · rw [show min plen (d0.length - b.currentPos) = plen from by omega]
      · rw [show min plen (d0.length - b.currentPos) = d0.length - b.currentPos from by omega]
        exact take_past_length _ (by rw [List.length_drop]; omega)
          (le_of_eq (List.length_drop _ _))

/-- C2: on an open, seek-enabled engine, resolving an absolute seek target
beyond the end of the stream forces a read-ahead that falls short, so the call
fails with `SeekerOutOfRange`, returns the pre-call `currentPos` and leaves it
unchanged; the bytes fetched while resolving stay buffered (`readerPos`
becomes the full stream length and is not rolled back) and a subsequent `Read`
continues correctly from the prior position. -/
theorem C2_seek_past_end {C : Nat} {d0 : List Nat} {b : BufReader}
    (hinv : Inv C d0 none b) (hcl : b.isClosed = false) (hsd : b.isSeekerDisabled = false)
    (abs : Int) (habs : (d0.length : Int) < abs) :
    (bufSeek b abs 0).1 = (b.currentPos : Int)
    ∧ (bufSeek b abs 0).2.1 = some GoErr.seekerOutOfRange
    ∧ (bufSeek b abs 0).2.2.currentPos = b.currentPos
    ∧ getReaderPos (bufSeek b abs 0).2.2 = d0.length
    ∧ (∀ plen, (bufRead (bufSeek b abs 0).2.2 plen).1
        = (d0.drop b.currentPos).take (min plen (d0.length - b.currentPos))) := by
  have hrple := inv_rp_le_d0 hinv
  have hop := hinv.openPos hcl hsd
  rw [bufSeek, if_neg (by rw [hcl]; simp), if_neg (by rw [hsd]; simp), if_pos rfl,
    bufSeekResolve, if_neg (show ¬abs < 0 from by omega),
    if_pos (show 0 < abs - (getReaderPos b : Int) from by omega), bufSeekFetch]
  have R := read_spec hinv hcl hsd (abs - (getReaderPos b : Int))
  have hrp2 : getReaderPos (read b (abs - (getReaderPos b : Int))).2.2
      = getReaderPos b + (read b (abs - (getReaderPos b : Int))).1 := by
    have h1 := R.rpEq
    have h2 := R.mono
    omega
  have hrple2 := inv_rp_le_d0 R.inv
  have herr : ¬((read b (abs - (getReaderPos b : Int))).2.1 ≠ none
      ∧ (read b (abs - (getReaderPos b : Int))).2.1 ≠ some GoErr.eof) := by
    intro hc
    rcases R.errShape rfl with h | h
    · exact hc.1 h
    · exact hc.2 h
  rw [if_neg herr]
  have hshort : ((read b (abs - (getReaderPos b : Int))).1 : Int)
      < abs - (getReaderPos b : Int) := by omega
  rw [if_pos hshort]
  have hdrained : getReaderPos (read b (abs - (getReaderPos b : Int))).2.2 = d0.length := by
    rcases R.errShape rfl with h | h
    · rcases R.errNone h with ⟨hn0, hle⟩ | ⟨hf, hde⟩
      · exfalso
        omega
      · exact drained_rp R.inv (R.closedEq.trans hcl) (R.disabledEq.trans hsd) hde
    · exact drained_rp R.inv (R.closedEq.trans hcl) (R.disabledEq.trans hsd) (R.errEof h).2.2
  refine ⟨?_, rfl, R.cpEq, hdrained, ?_⟩
  · show ((read b (abs - (getReaderPos b : Int))).2.2.currentPos : Int) = (b.currentPos : Int)
    rw [R.cpEq]
  · intro plen
    have h5 := bufRead_open_spec R.inv (R.closedEq.trans hcl) (R.disabledEq.trans hsd) plen
    rw [h5.1, R.cpEq]

theorem C2_witness :
    (bufSeek eng0 21 0).1 = 0
    ∧ (bufSeek eng0 21 0).2.1 = some GoErr.seekerOutOfRange
    ∧ (bufSeek eng0 21 0).2.2.currentPos = 0
    ∧ (bufRead (bufSeek eng0 21 0).2.2 3).1 = [1, 2, 3] := by
  have h := C2_seek_past_end (@inv_reachable 5 s20 eng0 (by decide) rfl Reachable.init)
    rfl rfl 21 (by decide)
  refine ⟨by rw [h.1]; rfl, h.2.1, h.2.2.1, ?_⟩
  rw [h.2.2.2.2 3]
  decide

/-- C3: every failing `Seek` call, on the buffered engine as well as on the
passthrough adapter, returns the pre-call `currentPos` alongside its error and
leaves `currentPos` unchanged — it is never reset to zero or partially
mutated. -/
theorem C3_seek_failure_keeps_pos :
    (∀ (b : BufReader) (offset : Int) (whence : Nat),
      (bufSeek b offset whence).2.1 ≠ none →
        (bufSeek b offset whence).1 = (b.currentPos : Int)
        ∧ (bufSeek b offset whence).2.2.currentPos = b.currentPos)
    ∧ (∀ (a : BufRS) (offset : Int) (whence : Nat),
      (bufRSSeek a offset whence).2.1 ≠ none →
        (bufRSSeek a offset whence).1 = a.currentPos
        ∧ (bufRSSeek a offset whence).2.2.currentPos = a.currentPos) :=
  ⟨bufSeek_fail, bufRSSeek_fail⟩

theorem C3_witness :
    (bufSeek eng0 (-1) 0).1 = 0
    ∧ (bufSeek eng0 (-1) 0).2.2.currentPos = 0
    ∧ (bufRSSeek { isSeekerDisabled := false, isClosed := false, currentPos := 7, rs := { length := 20, pos := 7 } } 0 9).1 = 7 := by
  have h := C3_seek_failure_keeps_pos.1 eng0 (-1) 0 (by decide)
  have h2 := C3_seek_failure_keeps_pos.2
    { isSeekerDisabled := false, isClosed := false, currentPos := 7, rs := { length := 20, pos := 7 } }
    0 9 (by decide)
  exact ⟨by rw [h.1]; rfl, by rw [h.2]; rfl, by rw [h2.1]⟩

/-- C4: on every reachable open engine the first `Close` succeeds, releases
every chunk the engine ever acquired exactly once (pool get count equals put
count afterwards), cancels the acquisition context and closes the underlying
source; a second `Close` fails with `Closed` changing nothing, and every
`Read` after a successful `Close` returns no bytes and `Closed`. -/
theorem C4_close_releases_all {C : Nat} {s : Src} {b : BufReader} (hC : 1 ≤ C)
    (hee : s.endErr = none) (hr : Reachable C s b) (hcl : b.isClosed = false) :
    (bufClose b).1 = none
    ∧ (bufClose b).2.poolGets = (bufClose b).2.poolPuts
    ∧ (bufClose b).2.ctxCanceled = true
    ∧ (bufClose b).2.srcClosed = true
    ∧ (bufClose b).2.isClosed = true
    ∧ bufClose (bufClose b).2 = (some GoErr.closed, (bufClose b).2)
    ∧ (∀ plen, bufRead (bufClose b).2 plen = ([], some GoErr.closed, (bufClose b).2)) := by
  have hinv := inv_reachable hC hee hr
  rw [bufClose_open hcl]
  refine ⟨rfl, ?_, rfl, rfl, rfl, ?_, ?_⟩
  · show b.poolGets = b.poolPuts + b.buffer.countP (fun x => x.isSome)
    exact hinv.count
  · exact bufClose_closed rfl
  · intro plen
    exact bufRead_closed rfl plen

theorem C4_witness :
    (bufClose (bufRead eng0 6).2.2).1 = none
    ∧ (bufClose (bufRead eng0 6).2.2).2.poolGets = (bufClose (bufRead eng0 6).2.2).2.poolPuts
    ∧ (bufClose (bufClose (bufRead eng0 6).2.2).2).1 = some GoErr.closed
    ∧ (bufRead (bufClose (bufRead eng0 6).2.2).2 3).1 = [] := by
  have h := @C4_close_releases_all 5 s20 (bufRead eng0 6).2.2 (by decide) rfl
    (Reachable.next Reachable.init (Step.doRead eng0 6)) (by decide)
  refine ⟨h.1, h.2.1, ?_, ?_⟩
  · rw [h.2.2.2.2.2.1]
  · rw [h.2.2.2.2.2.2 3]

/-- C6: on an open, seek-enabled engine over an EOF-terminated source,
`Seek(offset, End)` with a positive offset fails with `SeekerOutOfRange` and
changes nothing; with `offset ≤ 0` it first forces a full read-ahead so that
`readerPos` equals the total length `L`, then sets and returns
`currentPos = L + offset` whenever that target is non-negative. -/
theorem C6_seek_end {C : Nat} {d0 : List Nat} {b : BufReader}
    (hinv : Inv C d0 none b) (hcl : b.isClosed = false) (hsd : b.isSeekerDisabled = false) :
    (∀ offset : Int, 0 < offset →
      bufSeek b offset 2 = ((b.currentPos : Int), some GoErr.seekerOutOfRange, b))
    ∧ (∀ offset : Int, offset ≤ 0 → 0 ≤ (d0.length : Int) + offset →
        (bufSeek b offset 2).1 = (d0.length : Int) + offset
        ∧ (bufSeek b offset 2).2.1 = none
        ∧ ((bufSeek b offset 2).2.2.currentPos : Int) = (d0.length : Int) + offset
        ∧ getReaderPos (bufSeek b offset 2).2.2 = d0.length) := by
  constructor
  · intro offset hoff
    rw [bufSeek, if_neg (by rw [hcl]; simp), if_neg (by rw [hsd]; simp),
      if_neg (by decide), if_neg (by decide), if_pos rfl, bufSeekEnd, if_pos hoff]
  · intro offset hoff habs2
    rw [bufSeek, if_neg (by rw [hcl]; simp), if_neg (by rw [hsd]; simp),
      if_neg (by decide), if_neg (by decide), if_pos rfl, bufSeekEnd,
      if_neg (show ¬0 < offset from by omega)]
    have R := read_spec hinv hcl hsd (-1)
    have herr : ¬((read b (-1)).2.1 ≠ none ∧ (read b (-1)).2.1 ≠ some GoErr.eof) := by
      intro hc
      rcases R.errShape rfl with h | h
      · exact hc.1 h
      · exact hc.2 h
    rw [if_neg herr]
    have hde : (read b (-1)).2.2.src.data = [] := by
      rcases R.errShape rfl with h | h
      · rcases R.errNone h with ⟨hn0, _⟩ | ⟨_, hd⟩
        · exact absurd hn0 (by decide)
        · exact hd
      · exact (R.errEof h).2.2
    have hrpL : getReaderPos (read b (-1)).2.2 = d0.length :=
      drained_rp R.inv (R.closedEq.trans hcl) (R.disabledEq.trans hsd) hde
    rw [bufSeekResolve, hrpL,
      if_neg (show ¬(d0.length : Int) + offset < 0 from by omega),
      if_neg (show ¬0 < (d0.length : Int) + offset - (d0.length : Int) from by omega)]
    refine ⟨rfl, rfl, ?_, ?_⟩
    · show ((((d0.length : Int) + offset).toNat : Nat) : Int) = (d0.length : Int) + offset
      omega
    · exact hrpL

theorem C6_witness :
    (bufSeek eng0 (-3) 2).1 = 17
    ∧ (bufSeek eng0 (-3) 2).2.1 = none
    ∧ (bufSeek eng0 (-20) 2).1 = 0
    ∧ (bufSeek eng0 7 2).2.1 = some GoErr.seekerOutOfRange := by
  have h := C6_seek_end (@inv_reachable 5 s20 eng0 (by decide) rfl Reachable.init) rfl rfl
  obtain ⟨h1, h2, h3, h4⟩ := h.2 (-3) (by decide) (by decide)
  obtain ⟨g1, g2, g3, g4⟩ := h.2 (-20) (by decide) (by decide)
  refine ⟨by rw [h1]; decide, h2, by rw [g1]; decide, ?_⟩
  rw [h.1 7 (by decide)]

/-- C9: the type switch of `NewReader` wraps an argument that already
implements `BufferReadSeekCloser` in a fresh buffered engine (despite its
native seeking), gives the passthrough adapter only to a remaining
`io.ReadSeeker`, and buffers everything else. -/
theorem C9_dispatch :
    (∀ (r : DynReader) (C : Nat) (s : Src), r.impBRSC = true →
      newReaderModel r C s = NewReaderRes.buffered (newBufReader C s))
    ∧ (∀ (r : DynReader) (C : Nat) (s : Src), r.impBRSC = false → r.impSeeker = true →
      newReaderModel r C s = NewReaderRes.passthroughAdapter)
    ∧ (∀ (r : DynReader) (C : Nat) (s : Src), r.impSeeker = false →
      newReaderModel r C s = NewReaderRes.buffered (newBufReader C s)) := by
  refine ⟨?_, ?_, ?_⟩
  · intro r C s h
    rw [newReaderModel, if_pos h]
  · intro r C s h1 h2
    rw [newReaderModel, if_neg (by rw [h1]; simp), if_pos h2]
  · intro r C s h
    by_cases hb : r.impBRSC = true
    · rw [newReaderModel, if_pos hb]
    · rw [newReaderModel, if_neg hb, if_neg (by rw [h]; simp)]

theorem C9_witness :
    newReaderModel { impBRSC := true, impSeeker := true, impCloser := true } 5 s20
      = NewReaderRes.buffered (newBufReader 5 s20)
    ∧ newReaderModel { impBRSC := false, impSeeker := true, impCloser := false } 5 s20
      = NewReaderRes.passthroughAdapter :=
  ⟨C9_dispatch.1 { impBRSC := true, impSeeker := true, impCloser := true } 5 s20 rfl,
    C9_dispatch.2.1 { impBRSC := false, impSeeker := true, impCloser := false } 5 s20 rfl rfl⟩

/-- C10: a factory built with `OptionWithSyncPool n` for `n ≤ 0` silently
falls back to the default chunk size, its `BufferSize` matching the 32768 of
an option-less factory; for positive `n` the size is `n` itself. -/
theorem C10_buffer_size :
    (∀ n : Int, n ≤ 0 → factoryBufferSize [FactoryOption.withSyncPool n] = 32768)
    ∧ factoryBufferSize [] = 32768
    ∧ (∀ n : Int, 0 < n → factoryBufferSize [FactoryOption.withSyncPool n] = n.toNat)
    ∧ DefaultBufferSize = 32768 := by
  refine ⟨?_, ?_, ?_, by decide⟩
  · intro n hn
    show newPoolBufSize n = 32768
    rw [newPoolBufSize, if_pos hn]
    decide
  · show newPoolBufSize (DefaultBufferSize : Nat) = 32768
    rw [newPoolBufSize, if_neg (by decide)]
    decide
  · intro n hn
    show newPoolBufSize n = n.toNat
    rw [newPoolBufSize, if_neg (by omega)]

theorem C10_witness :
    factoryBufferSize [FactoryOption.withSyncPool 0] = 32768
    ∧ factoryBufferSize [FactoryOption.withSyncPool (-7)] = 32768
    ∧ factoryBufferSize [FactoryOption.withSyncPool 4096] = 4096 := by
  refine ⟨C10_buffer_size.1 0 (by decide), C10_buffer_size.1 (-7) (by decide), ?_⟩
  rw [C10_buffer_size.2.2.1 4096 (by decide)]
  decide

/-- C1 (amended): on an open, seek-enabled engine over an EOF-terminated
source, `Read` reports either no error or the end-of-stream error; the
end-of-stream error is reported only when fewer than `len(p)` bytes could be
delivered and every byte of the stream has been fetched, and a full read is
never an error — but, unlike the original claim, a short read with `n > 0` can
carry the end-of-stream error together with its data. -/
theorem C1_read_eof_only_short {C : Nat} {d0 : List Nat} {b : BufReader}
    (hinv : Inv C d0 none b) (hcl : b.isClosed = false) (hsd : b.isSeekerDisabled = false)
    (plen : Nat) :
    ((bufRead b plen).2.1 = none ∨ (bufRead b plen).2.1 = some GoErr.eof)
    ∧ ((bufRead b plen).2.1 = some GoErr.eof →
        (bufRead b plen).1.length < plen
        ∧ (bufRead b plen).2.2.isEofReached = true
        ∧ (bufRead b plen).2.2.src.data = [])
    ∧ ((bufRead b plen).1.length = plen → (bufRead b plen).2.1 = none) := by
  obtain ⟨h1, h2⟩ := bufRead_eof_char hinv hcl hsd plen
  refine ⟨h1, fun h => ⟨(h2 h).1, (h2 h).2.1, (h2 h).2.2.1⟩, fun hfull => ?_⟩
  rcases h1 with h | h
  · exact h
  · have hlt := (h2 h).1
    omega

theorem C1_witness :
    (bufRead (bufRead eng0 25).2.2 5).2.1 = some GoErr.eof
    ∧ (bufRead (bufRead eng0 25).2.2 5).1.length < 5
    ∧ (bufRead (bufRead eng0 25).2.2 5).2.2.src.data = [] := by
  have h := C1_read_eof_only_short (@inv_reachable 5 s20 (bufRead eng0 25).2.2 (by decide)
    rfl (Reachable.next Reachable.init (Step.doRead eng0 25))) (by decide) (by decide) 5
  have he : (bufRead (bufRead eng0 25).2.2 5).2.1 = some GoErr.eof := by decide
  exact ⟨he, (h.2.1 he).1, (h.2.1 he).2.2⟩

theorem C1_counterexample :
    Reachable 5 s20 eng17
    ∧ eng17.isClosed = false
    ∧ eng17.isSeekerDisabled = false
    ∧ (bufRead eng17 5).1 = [18, 19, 20]
    ∧ (bufRead eng17 5).2.1 = some GoErr.eof := by
  refine ⟨Reachable.next Reachable.init (Step.doSeek eng0 (-3) 2),
    by decide, by decide, by decide, by decide⟩

/-- C5 (amended): `DisableSeeker` on an open engine is one-shot: it sets the
flag, keeps `currentPos`, and releases back to the pool exactly the chunks
with index below `currentPos / C` — the chunks whose full capacity slot lies
below `currentPos`; in particular a partially filled final chunk is retained
even when all of its bytes are consumed, which contradicts the original
claim's byte-range criterion (see the counterexample). Afterwards every `Seek`
fails with `SeekerDisabled` reporting the unchanged position, and `Read`
still delivers the stream from `currentPos` on, draining the buffered tail
before passing through to the source. -/
theorem C5_disable_seeker {C : Nat} {d0 : List Nat} {b : BufReader}
    (hinv : Inv C d0 none b) (hcl : b.isClosed = false) (hsd : b.isSeekerDisabled = false) :
    (disableSeeker b).isSeekerDisabled = true
    ∧ (disableSeeker b).currentPos = b.currentPos
    ∧ (disableSeeker b).poolPuts
        = b.poolPuts + (b.buffer.take (b.currentPos / C)).countP (fun c => c.isSome)
    ∧ (∀ i, i < b.buffer.length → b.currentPos / C ≤ i →
        (disableSeeker b).buffer.getD i none = b.buffer.getD i none)
    ∧ (∀ i, i < (disableSeeker b).buffer.length → i < b.currentPos / C →
        (disableSeeker b).buffer.getD i none = none)
    ∧ disableSeeker (disableSeeker b) = disableSeeker b
    ∧ (∀ (offset : Int) (whence : Nat), bufSeek (disableSeeker b) offset whence
        = ((b.currentPos : Int), some GoErr.seekerDisabled, disableSeeker b))
    ∧ (∀ plen, (bufRead (disableSeeker b) plen).1
        = (d0.drop b.currentPos).take (min plen (d0.length - b.currentPos))) := by
  have hsz : b.currentPos / C = b.currentPos / b.bufSize := by rw [hinv.size]
  rw [hsz]
  have hop := hinv.openPos hcl hsd
  have hrple := inv_rp_le_d0 hinv
  have hinv2 : Inv C d0 none (disableSeeker b) := inv_disableSeeker hinv hcl hsd
  have hcl2 : (disableSeeker b).isClosed = false := by
    rw [disableSeeker_open hcl hsd]
    exact hcl
  have hsd2 : (disableSeeker b).isSeekerDisabled = true := by
    rw [disableSeeker_open hcl hsd]
    rfl
  have hsrc : (disableSeeker b).src = b.src := by
    rw [disableSeeker_open hcl hsd]
    rfl
  have hcp : (disableSeeker b).currentPos = b.currentPos := by
    rw [disableSeeker_open hcl hsd]
    rfl
  by_cases hcase : b.currentPos / b.bufSize < b.buffer.length
  · set crp := b.currentPos / b.bufSize with hcrp
    have hds := disableSeeker_part hcl hsd hcase
    have hlm : ((b.buffer.take crp).map (fun _ => (none : Option (List Nat)))).length = crp := by
      rw [List.length_map, List.length_take]
      omega
    have hlen : ((b.buffer.take crp).map (fun _ => (none : Option (List Nat)))
        ++ b.buffer.drop crp).length = b.buffer.length := by
      rw [List.length_append, hlm, List.length_drop]
      omega
    have hgetD : ∀ i, ((b.buffer.take crp).map (fun _ => (none : Option (List Nat)))
        ++ b.buffer.drop crp).getD i none = if i < crp then none else b.buffer.getD i none := by
      intro i
      by_cases hi : i < crp
      · rw [if_pos hi, getD_append_left (by rw [hlm]; omega), getD_map_none]
      · rw [if_neg hi, getD_append_right (by rw [hlm]; omega), hlm, getD_drop]
        congr 1
        omega
    have hbne : b.buffer ≠ [] := by
      intro h
      rw [h] at hcase
      simp at hcase
    have hne : ((b.buffer.take crp).map (fun _ => (none : Option (List Nat)))
        ++ b.buffer.drop crp) ≠ [] := by
      intro h
      rw [h] at hlen
      have h0 : b.buffer.length = 0 := by simpa using hlen.symm
      omega
    have hlast : ((b.buffer.take crp).map (fun _ => (none : Option (List Nat)))
        ++ b.buffer.drop crp).getLast? = b.buffer.getLast? := by
      rw [getLast?_eq_getD _ hne, getLast?_eq_getD b.buffer hbne, hlen, hgetD,
        if_neg (by omega)]
    have hrp : getReaderPos (disableSeeker b) = getReaderPos b := by
      rw [hds]
      exact getReaderPos_congr hlen hlast rfl
    refine ⟨hsd2, hcp, ?_, ?_, ?_, disableSeeker_disabled hcl2 hsd2, ?_, ?_⟩
    · rw [hds]
    · intro i hi hgei
      rw [hds]
      show ((b.buffer.take crp).map (fun _ => (none : Option (List Nat)))
        ++ b.buffer.drop crp).getD i none = b.buffer.getD i none
      rw [hgetD i, if_neg (by omega)]
    · intro i hi hilt
      rw [hds]
      show ((b.buffer.take crp).map (fun _ => (none : Option (List Nat)))
        ++ b.buffer.drop crp).getD i none = none
      rw [hgetD i, if_pos hilt]
    · intro offset whence
      rw [bufSeek_disabled hcl2 hsd2, hcp]
    · intro plen
      have hdata : (disableSeeker b).src.data
          = d0.drop (max (disableSeeker b).currentPos (getReaderPos (disableSeeker b))) := by
        rw [hsrc, hcp, hrp,
          show max b.currentPos (getReaderPos b) = getReaderPos b from by omega]
        exact hinv.openData hcl hsd
      have hcpL2 : (disableSeeker b).currentPos ≤ d0.length := by
        rw [hcp]
        omega
      rw [bufRead_disabled_spec hinv2 hcl2 hsd2 hdata hcpL2 plen, hcp]
  · have hge : b.buffer.length ≤ b.currentPos / b.bufSize := by omega
    have hds := disableSeeker_complete hcl hsd hge
    have hrp0 : getReaderPos (disableSeeker b) = 0 := by
      rw [hds]
      exact getReaderPos_of_nil rfl
    have hcprp : b.currentPos = getReaderPos b := by
      have h1 := inv_rp_le_mul hinv
      rw [← hinv.size] at h1
      have h2 : b.buffer.length * b.bufSize ≤ (b.currentPos / b.bufSize) * b.bufSize :=
        Nat.mul_le_mul_right _ hge
      have h3 : (b.currentPos / b.bufSize) * b.bufSize ≤ b.currentPos :=
        Nat.div_mul_le_self _ _
      omega
    refine ⟨hsd2, hcp, ?_, ?_, ?_, disableSeeker_disabled hcl2 hsd2, ?_, ?_⟩
    · rw [hds]
      show b.poolPuts + b.buffer.countP (fun x => x.isSome)
        = b.poolPuts + (b.buffer.take (b.currentPos / b.bufSize)).countP (fun c => c.isSome)
      rw [List.take_of_length_le hge]
    · intro i hi hgei
      omega
    · intro i hi hilt
      rw [hds] at hi
      have hi0 : i < (0 : Nat) := hi
      omega
    · intro offset whence
      rw [bufSeek_disabled hcl2 hsd2, hcp]
    · intro plen
      have hdata : (disableSeeker b).src.data
          = d0.drop (max (disableSeeker b).currentPos (getReaderPos (disableSeeker b))) := by
        rw [hsrc, hcp, hrp0, show max b.currentPos 0 = b.currentPos from by omega, hcprp]
        exact hinv.openData hcl hsd
      have hcpL2 : (disableSeeker b).currentPos ≤ d0.length := by
        rw [hcp]
        omega
      rw [bufRead_disabled_spec hinv2 hcl2 hsd2 hdata hcpL2 plen, hcp]

theorem C5_witness :
    (disableSeeker (bufRead eng0 8).2.2).isSeekerDisabled = true
    ∧ (disableSeeker (bufRead eng0 8).2.2).currentPos = 8
    ∧ (disableSeeker (bufRead eng0 8).2.2).poolPuts = 1
    ∧ (bufSeek (disableSeeker (bufRead eng0 8).2.2) 0 0).2.1 = some GoErr.seekerDisabled
    ∧ (bufRead (disableSeeker (bufRead eng0 8).2.2) 2).1 = [9, 10] := by
  have h := C5_disable_seeker (@inv_reachable 5 s20 (bufRead eng0 8).2.2 (by decide) rfl
    (Reachable.next Reachable.init (Step.doRead eng0 8))) (by decide) (by decide)
  refine ⟨h.1, ?_, ?_, ?_, ?_⟩
  · rw [h.2.1]
    decide
  · rw [h.2.2.1]
    decide
  · rw [h.2.2.2.2.2.2.1 0 0]
  · rw [h.2.2.2.2.2.2.2 2]
    decide

theorem C5_counterexample :
    Reachable 5 srcAbc engAbc
    ∧ engAbc.currentPos = 3
    ∧ engAbc.buffer = [some [7, 8, 9]]
    ∧ engAbc.poolGets = 1
    ∧ (disableSeeker engAbc).poolPuts = engAbc.poolPuts
    ∧ (disableSeeker engAbc).buffer = [some [7, 8, 9]] := by
  refine ⟨Reachable.next Reachable.init (Step.doRead (newBufReader 5 srcAbc) 3),
    by decide, by decide, by decide, by decide, by decide⟩

/-- C7 (amended): on every reachable state of an engine over an EOF-terminated
source, every chunk except the last is filled to the full capacity `C`, and
the last chunk never exceeds `C`; the original qualifier — that the last chunk
is short only once the source has signalled end-of-stream — does not hold
(see the counterexample). -/
theorem C7_chunks_full {C : Nat} {s : Src} {b : BufReader} (hC : 1 ≤ C)
    (hee : s.endErr = none) (hr : Reachable C s b) :
    (∀ i c, i + 1 < b.buffer.length → b.buffer.getD i none = some c → c.length = C)
    ∧ (∀ c, b.buffer.getLast? = some (some c) → c.length ≤ C) := by
  have hinv := inv_reachable hC hee hr
  exact ⟨hinv.allFull, hinv.lastLe⟩

theorem C7_witness :
    (bufRead eng0 8).2.2.buffer.length = 2
    ∧ (bufRead eng0 8).2.2.buffer.getD 0 none = some [1, 2, 3, 4, 5]
    ∧ [1, 2, 3, 4, 5].length = 5 := by
  refine ⟨by decide, by decide, ?_⟩
  exact (C7_chunks_full (by decide) rfl (Reachable.next Reachable.init
    (Step.doRead eng0 8))).1 0 [1, 2, 3, 4, 5] (by decide) (by decide)

theorem C7_counterexample :
    Reachable 5 srcAbc engAbc
    ∧ engAbc.buffer = [some [7, 8, 9]]
    ∧ engAbc.bufSize = 5
    ∧ engAbc.isEofReached = false
    ∧ engAbc.isClosed = false := by
  refine ⟨Reachable.next Reachable.init (Step.doRead (newBufReader 5 srcAbc) 3),
    by decide, by decide, by decide, by decide⟩

/-- C8 (amended): `0 ≤ currentPos ≤ readerPos ≤ total source length` holds on
every reachable state that is still open with the seeker enabled; it is not an
invariant of every reachable state, because `Close` and the cleanup after a
disabled-mode `Read` drop the chunk list, driving the derived `readerPos` to
zero while `currentPos` keeps its value (see the counterexample). -/
theorem C8_pos_bound {C : Nat} {s : Src} {b : BufReader} (hC : 1 ≤ C)
    (hee : s.endErr = none) (hr : Reachable C s b) (hcl : b.isClosed = false)
    (hsd : b.isSeekerDisabled = false) :
    b.currentPos ≤ getReaderPos b ∧ getReaderPos b ≤ s.data.length := by
  have hinv := inv_reachable hC hee hr
  exact ⟨hinv.openPos hcl hsd, inv_rp_le_d0 hinv⟩

theorem C8_witness :
    (bufRead eng0 8).2.2.currentPos ≤ getReaderPos (bufRead eng0 8).2.2
    ∧ getReaderPos (bufRead eng0 8).2.2 ≤ s20.data.length :=
  C8_pos_bound (by decide) rfl (Reachable.next Reachable.init (Step.doRead eng0 8))
    (by decide) (by decide)

theorem C8_counterexample :
    Reachable 5 srcAbc (bufClose engAbc).2
    ∧ (bufClose engAbc).2.currentPos = 3
    ∧ getReaderPos (bufClose engAbc).2 = 0 := by
  refine ⟨Reachable.next (Reachable.next Reachable.init
    (Step.doRead (newBufReader 5 srcAbc) 3)) (Step.doClose engAbc), by decide, by decide⟩

end Gosdk
